import Mathlib

/-!
# Verified model of the vue-allotment split-view engine

Shallow embedding of `src/src/lib/split-view/split-view.ts`. JavaScript
numbers are modelled as rationals; a view's maximum size is modelled as a
finite rational (the source also allows `Number.POSITIVE_INFINITY`, which a
caller approximates with a large bound). DOM-only behaviour (element
styling, sash rendering, event-emitter plumbing) carries no sizes and is
dropped; every size-relevant statement of the source is kept, line for
line. The engine callbacks `onDidDragStart` / `onDidChange` /
`onDidDragEnd` are modelled as an event trace.
-/

namespace VueAllotment

/-- The `LayoutPriority` enum of split-view.ts. -/
inductive LayoutPriority where
  | Normal
  | Low
  | High
deriving DecidableEq

/-- The `View` interface of split-view.ts: size bounds, optional layout
priority (the field is optional in the source: `priority?: LayoutPriority`)
and the snap flag (`!!view.snap`). -/
structure View where
  minimumSize : ℚ
  maximumSize : ℚ
  priority : Option LayoutPriority
  snap : Bool
deriving DecidableEq

instance : Inhabited View := ⟨⟨0, 0, none, false⟩⟩

/-- `ViewItem`: the engine's wrapper holding a view, its current size and
the cached visible size (`undefined` iff the item is visible). -/
structure ViewItem where
  view : View
  size : ℚ
  cachedVisibleSize : Option ℚ
deriving DecidableEq

instance : Inhabited ViewItem := ⟨⟨default, 0, none⟩⟩

namespace ViewItem

/-- `get visible()` — true iff `_cachedVisibleSize === undefined`. -/
def visible (it : ViewItem) : Bool := it.cachedVisibleSize.isNone

/-- `get minimumSize()` — the view's minimum when visible, `0` when hidden. -/
def minimumSize (it : ViewItem) : ℚ :=
  if it.visible then it.view.minimumSize else 0

/-- `get maximumSize()` — the view's maximum when visible, `0` when hidden. -/
def maximumSize (it : ViewItem) : ℚ :=
  if it.visible then it.view.maximumSize else 0

/-- `get priority()` — forwarded from the view (may be `undefined`). -/
def priority (it : ViewItem) : Option LayoutPriority := it.view.priority

/-- `get snap()` — `!!this.view.snap`. -/
def snap (it : ViewItem) : Bool := it.view.snap

end ViewItem

/-- lodash `clamp(number, lower, upper)`: the upper bound is applied first,
then the lower bound, so the lower bound wins when `lower > upper`. -/
def clampQ (x lower upper : ℚ) : ℚ := max (min x upper) lower

/-- JavaScript `Math.round` (round half toward positive infinity). -/
def jsRound (x : ℚ) : ℚ := ((⌊x + 1 / 2⌋ : ℤ) : ℚ)

/-- JavaScript `Math.floor`. -/
def jsFloorQ (x : ℚ) : ℚ := ((⌊x⌋ : ℤ) : ℚ)

/-- `ViewItem.setVisible(visible, size?)`: no-op when the visibility does
not change; on show, restore the cached size clamped to the view's bounds;
on hide, cache the given size (or the current one) and zero the size. -/
def ViewItem.setVisible (it : ViewItem) (visible : Bool) (sizeArg : Option ℚ) :
    ViewItem :=
  if visible = it.visible then it
  else if visible then
    { it with
      size := clampQ (it.cachedVisibleSize.getD 0) it.view.minimumSize
        it.view.maximumSize
      cachedVisibleSize := none }
  else
    { it with cachedVisibleSize := some (sizeArg.getD it.size), size := 0 }

/-- `SashDragSnapState` of split-view.ts. -/
structure SashDragSnapState where
  index : ℕ
  limitDelta : ℚ
  size : ℚ
deriving DecidableEq

/-- `SashDragState` of split-view.ts (pointer coordinates on the primary
axis are rationals). -/
structure SashDragState where
  index : ℕ
  start : ℚ
  current : ℚ
  sizes : List ℚ
  minDelta : ℚ
  maxDelta : ℚ
  snapBefore : Option SashDragSnapState
  snapAfter : Option SashDragSnapState
deriving DecidableEq

/-- The `Sizing` argument of `addView` / `removeView`: an exact pixel size
(`typeof size === 'number'`), or one of the discriminated sizings. The
`split` index is an arbitrary integer, as in the source, where it is never
validated. -/
inductive Sizing where
  | exact (size : ℚ)
  | distribute
  | split (index : ℤ)
  | invisible (cachedVisibleSize : ℚ)
deriving DecidableEq

/-- The engine state of the `SplitView` class: container size, cached
content size, optional saved proportions, the proportional-layout flag, the
ordered view items, the number of sashes, and the in-progress drag state. -/
structure SplitView where
  size : ℚ
  contentSize : ℚ
  proportions : Option (List ℚ)
  proportionalLayout : Bool
  viewItems : List ViewItem
  sashCount : ℕ
  sashDragState : Option SashDragState
deriving DecidableEq

/-- Modelled from the spec: the array helper module (`range`, `pushToStart`,
`pushToEnd`) imported by split-view.ts is not under src/. Spec section 4.3:
`upIndexes = [i, i - 1, ..., 0]`. -/
def rangeDownFrom (i : ℕ) : List ℕ := (List.range (i + 1)).reverse

/-- Modelled from the spec: section 4.3, `downIndexes = [i + 1, ..., N - 1]`;
also covers the `range(0, N)` calls. -/
def rangeFromTo (a b : ℕ) : List ℕ := (List.range b).drop a

/-- Modelled from the spec: `pushToStart` moves the value, when present, to
the front of the list (spec section 4.3: high-priority indexes are moved to
the front of both orderings). -/
def pushToStart (l : List ℕ) (v : ℕ) : List ℕ :=
  if v ∈ l then v :: l.erase v else l

/-- Modelled from the spec: `pushToEnd` moves the value, when present, to
the end of the list (spec section 4.3: low-priority indexes are moved to
the end; a caller-supplied low-priority index is appended last). -/
def pushToEnd (l : List ℕ) (v : ℕ) : List ℕ :=
  if v ∈ l then l.erase v ++ [v] else l

/-- `this.viewItems[i]` at call sites where the source guarantees the index
is in range (out of range, the source would fault; the default is never
relied upon by the theorems below). -/
def itemAtL (l : List ViewItem) (i : ℕ) : ViewItem := l.getD i default

/-- `this.viewItems[i]` on an engine state. -/
def itemAt (s : SplitView) (i : ℕ) : ViewItem := itemAtL s.viewItems i

/-- `this.viewItems.reduce((r, i) => r + i.size, 0)`. -/
def sumSizes (l : List ViewItem) : ℚ := l.foldl (fun r it => r + it.size) 0

/-- `max` against an optional bound (drops out exactly like `Math.max`
against `NEGATIVE_INFINITY`). -/
def optMax (a : ℚ) : Option ℚ → ℚ
  | some b => max a b
  | none => a

/-- `min` against an optional bound (drops out exactly like `Math.min`
against `POSITIVE_INFINITY`). -/
def optMin (a : ℚ) : Option ℚ → ℚ
  | some b => min a b
  | none => a

/-- `SplitView.getViewSize(index)`: `-1` when the index is out of bounds. -/
def getViewSize (s : SplitView) (index : ℤ) : ℚ :=
  if index < 0 ∨ (s.viewItems.length : ℤ) ≤ index then -1
  else (itemAt s index.toNat).size

/-- `SplitView.getMinDelta(upIndexes, downIndexes, sizes)`. -/
def getMinDelta (s : SplitView) (upIndexes downIndexes : List ℕ)
    (sizes : List ℚ) : ℚ :=
  let upMinDelta := upIndexes.foldl
    (fun r i => r + ((itemAt s i).minimumSize - sizes.getD i 0)) 0
  let downMaxDelta := downIndexes.foldl
    (fun r i => r + (sizes.getD i 0 - (itemAt s i).maximumSize)) 0
  max upMinDelta downMaxDelta

/-- `SplitView.getMaxDelta(upIndexes, downIndexes, sizes)`. -/
def getMaxDelta (s : SplitView) (upIndexes downIndexes : List ℕ)
    (sizes : List ℚ) : ℚ :=
  let upMaxDelta := upIndexes.foldl
    (fun r i => r + ((itemAt s i).maximumSize - sizes.getD i 0)) 0
  let downMinDelta := downIndexes.foldl
    (fun r i => r + (sizes.getD i 0 - (itemAt s i).minimumSize)) 0
  min downMinDelta upMaxDelta

/-- First loop of `findFirstSnapIndex`: the first visible snap-enabled item. -/
def findSnapVisible (s : SplitView) : List ℕ → Option ℕ
  | [] => none
  | i :: rest =>
    let it := itemAt s i
    if it.visible ∧ it.snap then some i else findSnapVisible s rest

/-- Second loop of `findFirstSnapIndex`: stop at the first visible flexible
item, otherwise return the first hidden snap-enabled item. -/
def findSnapHidden (s : SplitView) : List ℕ → Option ℕ
  | [] => none
  | i :: rest =>
    let it := itemAt s i
    if it.visible ∧ 0 < it.maximumSize - it.minimumSize then none
    else if ¬it.visible ∧ it.snap then some i
    else findSnapHidden s rest

/-- `SplitView.findFirstSnapIndex(indexes)`. -/
def findFirstSnapIndex (s : SplitView) (indexes : List ℕ) : Option ℕ :=
  match findSnapVisible s indexes with
  | some i => some i
  | none => findSnapHidden s indexes

/-- `SplitView.onSashStart`: snapshot the sizes, compute the drag bounds
and the up-to-two snap targets, and record the drag state. The sash index
is passed directly (the source recovers it from the sash object, with a
DOM-element fallback for proxy wrapping). -/
def onSashStart (s : SplitView) (index : ℕ) (start current : ℚ) : SplitView :=
  let sizes := s.viewItems.map ViewItem.size
  let upIndexes := rangeDownFrom index
  let downIndexes := rangeFromTo (index + 1) s.viewItems.length
  let minDelta := getMinDelta s upIndexes downIndexes sizes
  let maxDelta := getMaxDelta s upIndexes downIndexes sizes
  let snapBefore : Option SashDragSnapState :=
    (findFirstSnapIndex s upIndexes).map fun i =>
      let it := itemAt s i
      let halfSize := jsFloorQ (it.minimumSize / 2)
      { index := i
        limitDelta := if it.visible then minDelta - halfSize
          else minDelta + halfSize
        size := it.size }
  let snapAfter : Option SashDragSnapState :=
    (findFirstSnapIndex s downIndexes).map fun i =>
      let it := itemAt s i
      let halfSize := jsFloorQ (it.minimumSize / 2)
      { index := i
        limitDelta := if it.visible then maxDelta + halfSize
          else maxDelta - halfSize
        size := it.size }
  { s with
    sashDragState := some
      { index, start, current, sizes, minDelta, maxDelta, snapBefore,
        snapAfter } }

/-- `viewItem.setVisible(...)` applied to the item at a list index of the
engine state (no-op when the source would fault on a missing item). -/
def setItemVisibleAt (s : SplitView) (i : ℕ) (visible : Bool)
    (sizeArg : Option ℚ) : SplitView :=
  match s.viewItems.get? i with
  | none => s
  | some it =>
    { s with viewItems := s.viewItems.set i (it.setVisible visible sizeArg) }

/-- The snap block at the head of `SplitView.resize`: toggle the
snap-before target when `delta >= limitDelta`; when it did not toggle,
toggle the snap-after target when `delta < limitDelta`. (`setVisible` is a
no-op when the visibility does not change, so the untoggled case leaves the
state as it was.) -/
def applySnaps (s : SplitView) (delta : ℚ)
    (snapBefore snapAfter : Option SashDragSnapState) : SplitView :=
  let before :=
    match snapBefore with
    | none => (s, false)
    | some sb =>
      let it := itemAt s sb.index
      let vis : Bool := decide (sb.limitDelta ≤ delta)
      (setItemVisibleAt s sb.index vis (some sb.size), vis ≠ it.visible)
  if before.2 then before.1
  else
    match snapAfter with
    | none => before.1
    | some sa =>
      let vis : Bool := decide (delta < sa.limitDelta)
      setItemVisibleAt before.1 sa.index vis (some sa.size)

/-- One step of the up-items loop of `SplitView.resize`: clamp
`upSizes[i] + deltaUp` to the item's effective bounds, subtract the applied
portion from the accumulator, write the size. -/
def stepUp (acc : List ViewItem × ℚ) (p : ℕ × ℚ) : List ViewItem × ℚ :=
  match acc.1.get? p.1 with
  | none => acc
  | some it =>
    let newSize := clampQ (p.2 + acc.2) it.minimumSize it.maximumSize
    (acc.1.set p.1 { it with size := newSize }, acc.2 - (newSize - p.2))

/-- One step of the down-items loop of `SplitView.resize`: clamp
`downSizes[i] - deltaDown`, add the applied portion back into the
accumulator, write the size. -/
def stepDown (acc : List ViewItem × ℚ) (p : ℕ × ℚ) : List ViewItem × ℚ :=
  match acc.1.get? p.1 with
  | none => acc
  | some it =>
    let newSize := clampQ (p.2 - acc.2) it.minimumSize it.maximumSize
    (acc.1.set p.1 { it with size := newSize }, acc.2 + (newSize - p.2))

/-- The priority steering of the up-indexes ordering (`pushToStart` every
high-priority index, `pushToEnd` every low-priority index). -/
def steeredUp (index : ℕ) (lowPriorityIndexes highPriorityIndexes : List ℕ) :
    List ℕ :=
  lowPriorityIndexes.foldl pushToEnd
    (highPriorityIndexes.foldl pushToStart (rangeDownFrom index))

/-- The priority steering of the down-indexes ordering. -/
def steeredDown (index n : ℕ) (lowPriorityIndexes highPriorityIndexes : List ℕ) :
    List ℕ :=
  lowPriorityIndexes.foldl pushToEnd
    (highPriorityIndexes.foldl pushToStart (rangeFromTo (index + 1) n))

/-- The two clamped walks at the tail of `SplitView.resize`: the up-items
loop from the captured up sizes, then the down-items loop. -/
def resizeApply (items : List ViewItem) (upIndexes downIndexes : List ℕ)
    (upSizes downSizes : List ℚ) (delta : ℚ) : List ViewItem :=
  ((downIndexes.zip downSizes).foldl stepDown
    (((upIndexes.zip upSizes).foldl stepUp (items, delta)).1, delta)).1

/-- The body of `SplitView.resize` after the snap block (also the target of
the snap-triggered re-invocation): build the priority-steered index
orderings, compute the permissible delta bounds, clamp the delta and walk
the two loops. -/
def resizeCore (s : SplitView) (index : ℕ) (delta : ℚ)
    (sizes : Option (List ℚ)) (lowPriorityIndexes highPriorityIndexes : List ℕ)
    (overloadMinDelta overloadMaxDelta : Option ℚ) : SplitView :=
  let upIndexes := steeredUp index lowPriorityIndexes highPriorityIndexes
  let downIndexes :=
    steeredDown index s.viewItems.length lowPriorityIndexes highPriorityIndexes
  let currentSizes := sizes.getD (s.viewItems.map ViewItem.size)
  let upSizes := upIndexes.map fun i => currentSizes.getD i 0
  let downSizes := downIndexes.map fun i => currentSizes.getD i 0
  let minDeltaUp := upIndexes.foldl
    (fun r i => r + ((itemAt s i).minimumSize - currentSizes.getD i 0)) 0
  let maxDeltaUp := upIndexes.foldl
    (fun r i => r + ((itemAt s i).maximumSize - currentSizes.getD i 0)) 0
  let maxDeltaDown : Option ℚ :=
    if downIndexes.isEmpty then none
    else some (downIndexes.foldl
      (fun r i => r + (currentSizes.getD i 0 - (itemAt s i).minimumSize)) 0)
  let minDeltaDown : Option ℚ :=
    if downIndexes.isEmpty then none
    else some (downIndexes.foldl
      (fun r i => r + (currentSizes.getD i 0 - (itemAt s i).maximumSize)) 0)
  let minDelta := optMax (optMax minDeltaUp minDeltaDown) overloadMinDelta
  let maxDelta := optMin (optMin maxDeltaUp maxDeltaDown) overloadMaxDelta
  let delta := clampQ delta minDelta maxDelta
  { s with
    viewItems :=
      resizeApply s.viewItems upIndexes downIndexes upSizes downSizes delta }

/-- `SplitView.resize`: bounds guard, snap block, then the core; a snap
toggle re-invokes the algorithm on the toggled state with the same
overloads and no snap parameters, which is exactly `resizeCore` of the
toggled state (when nothing toggles, the snap block left the state
unchanged, so the straight-line continuation agrees with `resizeCore`
too). -/
def resize (s : SplitView) (index : ℕ) (delta : ℚ) (sizes : Option (List ℚ))
    (lowPriorityIndexes highPriorityIndexes : List ℕ)
    (overloadMinDelta overloadMaxDelta : Option ℚ)
    (snapBefore snapAfter : Option SashDragSnapState) : SplitView :=
  if s.viewItems.length ≤ index then s
  else
    resizeCore (applySnaps s delta snapBefore snapAfter) index delta sizes
      lowPriorityIndexes highPriorityIndexes overloadMinDelta overloadMaxDelta

/-- One step of the `distributeEmptySpace` loop; the loop condition
`emptyDelta !== 0` is checked before every item. -/
def distStep (acc : List ViewItem × ℚ) (i : ℕ) : List ViewItem × ℚ :=
  if acc.2 = 0 then acc
  else
    match acc.1.get? i with
    | none => acc
    | some it =>
      let newSize := clampQ (it.size + acc.2) it.minimumSize it.maximumSize
      (acc.1.set i { it with size := newSize }, acc.2 - (newSize - it.size))

/-- The visit order of `distributeEmptySpace`: the indexes with an
explicitly declared High priority, then those with explicit Normal, then
explicit Low (an item whose view declares no priority is in none of the
three filters), with the caller-supplied low-priority index pushed to the
very end when it is among them. -/
def distSortedIndexes (l : List ViewItem) (lowPriorityIndex : Option ℕ) :
    List ℕ :=
  let indexes := rangeFromTo 0 l.length
  let lowPriorityIndexes := indexes.filter fun i =>
    decide ((itemAtL l i).priority = some LayoutPriority.Low)
  let normalPriorityIndexes := indexes.filter fun i =>
    decide ((itemAtL l i).priority = some LayoutPriority.Normal)
  let highPriorityIndexes := indexes.filter fun i =>
    decide ((itemAtL l i).priority = some LayoutPriority.High)
  let sortedIndexes :=
    highPriorityIndexes ++ normalPriorityIndexes ++ lowPriorityIndexes
  match lowPriorityIndex with
  | some i => pushToEnd sortedIndexes i
  | none => sortedIndexes

/-- `SplitView.distributeEmptySpace(lowPriorityIndex?)`: walk the items in
the sorted priority order and absorb the signed gap between the container
size and the content size. -/
def distributeEmptySpace (lowPriorityIndex : Option ℕ) (s : SplitView) :
    SplitView :=
  if s.viewItems.length = 0 then s
  else
    let contentSize := sumSizes s.viewItems
    let emptyDelta := s.size - contentSize
    let result := (distSortedIndexes s.viewItems lowPriorityIndex).foldl
      distStep (s.viewItems, emptyDelta)
    { s with viewItems := result.1, contentSize := sumSizes result.1 }

/-- `SplitView.layoutViews`: the size-relevant effect is recomputing the
content size (the offsets and sash positions are DOM writes). -/
def layoutViews (s : SplitView) : SplitView :=
  { s with contentSize := sumSizes s.viewItems }

/-- `SplitView.saveProportions`: capture `size / contentSize` per item when
proportional layout is on and the content size is positive. -/
def saveProportions (s : SplitView) : SplitView :=
  if s.proportionalLayout ∧ 0 < s.contentSize then
    { s with
      proportions := some (s.viewItems.map fun it => it.size / s.contentSize) }
  else s

/-- The proportional pass of `SplitView.layout`: each item whose proportion
is defined is re-sized to `clamp(round(proportion * size), min, max)`;
items beyond the proportions vector keep their size. -/
def propPhase (ps : List ℚ) (size : ℚ) : ℕ → List ViewItem → List ViewItem
  | _, [] => []
  | i, it :: rest =>
    (match ps.get? i with
      | some p =>
        { it with
          size := clampQ (jsRound (p * size)) it.minimumSize it.maximumSize }
      | none => it) :: propPhase ps size (i + 1) rest

/-- `SplitView.layout(size)`. -/
def layout (size : ℚ) (s : SplitView) : SplitView :=
  if s.viewItems.length = 0 then s
  else
    let previousSize := max s.size s.contentSize
    let s := { s with size := size }
    let s :=
      match s.proportions with
      | some ps => { s with viewItems := propPhase ps size 0 s.viewItems }
      | none =>
        let indexes := rangeFromTo 0 s.viewItems.length
        let lowPriorityIndexes := indexes.filter fun i =>
          decide ((itemAtL s.viewItems i).priority = some LayoutPriority.Low)
        let highPriorityIndexes := indexes.filter fun i =>
          decide ((itemAtL s.viewItems i).priority = some LayoutPriority.High)
        resize s (s.viewItems.length - 1) (size - previousSize) none
          lowPriorityIndexes highPriorityIndexes none none none none
    layoutViews (distributeEmptySpace none s)

/-- `SplitView.relayout(lowPriorityIndexes?, highPriorityIndexes?)`. -/
def relayout (lowPriorityIndexes highPriorityIndexes : List ℕ)
    (s : SplitView) : SplitView :=
  let contentSize := sumSizes s.viewItems
  let s := resize s (s.viewItems.length - 1) (s.size - contentSize) none
    lowPriorityIndexes highPriorityIndexes none none none none
  saveProportions (layoutViews (distributeEmptySpace none s))

/-- The equalising pass of `SplitView.distributeViewSizes()`: every
flexible item (those with `max - min > 0`) is set to the floor of the
average flexible size, clamped to its bounds. When no item is flexible the
loop body never runs. -/
def equalizeFlexible (l : List ViewItem) : List ViewItem :=
  let flexible := l.filter fun it =>
    decide (0 < it.maximumSize - it.minimumSize)
  if flexible.isEmpty then l
  else
    let target := jsFloorQ (sumSizes flexible / (flexible.length : ℚ))
    l.map fun it =>
      if 0 < it.maximumSize - it.minimumSize then
        { it with size := clampQ target it.minimumSize it.maximumSize }
      else it

/-- `SplitView.distributeViewSizes()`: equalise the flexible items, then
relayout with priority steering. -/
def distributeViewSizes (s : SplitView) : SplitView :=
  let s := { s with viewItems := equalizeFlexible s.viewItems }
  let indexes := rangeFromTo 0 s.viewItems.length
  let lowPriorityIndexes := indexes.filter fun i =>
    decide ((itemAtL s.viewItems i).priority = some LayoutPriority.Low)
  let highPriorityIndexes := indexes.filter fun i =>
    decide ((itemAtL s.viewItems i).priority = some LayoutPriority.High)
  relayout lowPriorityIndexes highPriorityIndexes s

/-- `SplitView.addView(container, view, size, index, skipLayout?)`. The
insertion index is a natural number clipped to the list length (JavaScript
`splice` appends when the index exceeds the length); the sizing argument is
never validated. -/
def addView (s : SplitView) (view : View) (size : Sizing) (index : ℕ)
    (skipLayout : Bool) : SplitView :=
  let item : ViewItem :=
    match size with
    | .exact q => ⟨view, q, none⟩
    | .split j => ⟨view, getViewSize s j / 2, none⟩
    | .invisible c => ⟨view, 0, some c⟩
    | .distribute => ⟨view, view.minimumSize, none⟩
  let s :=
    { s with
      viewItems := s.viewItems.insertIdx (min index s.viewItems.length) item
      sashCount :=
        if 1 < s.viewItems.length + 1 then s.sashCount + 1 else s.sashCount }
  let s := if skipLayout then s else relayout [] [] s
  if ¬skipLayout ∧ size = Sizing.distribute then distributeViewSizes s else s

/-- `SplitView.removeView(index, sizing?)`: throws on an out-of-bounds
index before any mutation; otherwise removes the item and its paired sash,
relayouts, and optionally re-distributes. -/
def removeView (s : SplitView) (index : ℤ) (sizing : Option Sizing) :
    Except String (View × SplitView) :=
  if index < 0 ∨ (s.viewItems.length : ℤ) ≤ index then
    .error "Index out of bounds"
  else
    let i := index.toNat
    let view := (itemAt s i).view
    let s :=
      { s with
        viewItems := s.viewItems.eraseIdx i
        sashCount :=
          if 1 < s.viewItems.length then s.sashCount - 1 else s.sashCount }
    let s := relayout [] [] s
    let s := if sizing = some Sizing.distribute then distributeViewSizes s
      else s
    .ok (view, s)

/-- `SplitView.getViewCachedVisibleSize(index)` (throws when out of
bounds). -/
def getViewCachedVisibleSize (s : SplitView) (index : ℤ) :
    Except String (Option ℚ) :=
  if index < 0 ∨ (s.viewItems.length : ℤ) ≤ index then
    .error "Index out of bounds"
  else .ok (itemAt s index.toNat).cachedVisibleSize

/-- `SplitView.moveView(container, from, to)`: preserve the cached-hidden
state, remove, reinsert. -/
def moveView (s : SplitView) (fromIndex : ℤ) (toIndex : ℕ) :
    Except String SplitView := do
  let cached ← getViewCachedVisibleSize s fromIndex
  let sizing :=
    match cached with
    | none => Sizing.exact (getViewSize s fromIndex)
    | some c => Sizing.invisible c
  let (view, s) ← removeView s fromIndex none
  return addView s view sizing toIndex false

/-- `SplitView.resizeView(index, size)`: a silent no-op when the index is
out of bounds; otherwise round, clamp to `[min, min(max, totalSize)]`,
write, and relayout with the index biased to low priority. -/
def resizeView (s : SplitView) (index : ℤ) (size : ℚ) : SplitView :=
  if index < 0 ∨ (s.viewItems.length : ℤ) ≤ index then s
  else
    let i := index.toNat
    let indexes := (rangeFromTo 0 s.viewItems.length).filter fun k =>
      decide (k ≠ i)
    let lowPriorityIndexes := (indexes.filter fun k =>
      decide ((itemAtL s.viewItems k).priority = some LayoutPriority.Low)) ++ [i]
    let highPriorityIndexes := indexes.filter fun k =>
      decide ((itemAtL s.viewItems k).priority = some LayoutPriority.High)
    let item := itemAt s i
    let newSize := clampQ (jsRound size) item.minimumSize
      (min item.maximumSize s.size)
    let s := { s with viewItems := s.viewItems.set i { item with size := newSize } }
    relayout lowPriorityIndexes highPriorityIndexes s

/-- The per-entry loop of `SplitView.resizeViews`. -/
def resizeViewsLoop (total : ℚ) : ℕ → List ℚ → List ViewItem → List ViewItem
  | _, [], items => items
  | idx, q :: rest, items =>
    match items.get? idx with
    | none => items
    | some it =>
      let newSize := clampQ (jsRound q) it.minimumSize (min it.maximumSize total)
      resizeViewsLoop total (idx + 1) rest (items.set idx { it with size := newSize })

/-- `SplitView.resizeViews(sizes)`: clamp-write each listed size, recompute
the content size and proportions, then `layout(this.size)`. A sizes vector
longer than the item list faults in the source (`this.viewItems[index]` is
undefined), modelled as `none`. -/
def resizeViews (s : SplitView) (sizes : List ℚ) : Option SplitView :=
  if s.viewItems.length < sizes.length then none
  else
    let items := resizeViewsLoop s.size 0 sizes s.viewItems
    let s := { s with viewItems := items, contentSize := sumSizes items }
    some (layout s.size (saveProportions s))

/-- `SplitView.isViewVisible(index)` (throws when out of bounds). -/
def isViewVisible (s : SplitView) (index : ℤ) : Except String Bool :=
  if index < 0 ∨ (s.viewItems.length : ℤ) ≤ index then
    .error "Index out of bounds"
  else .ok (itemAt s index.toNat).visible

/-- `SplitView.setViewVisible(index, visible)`: throws on an out-of-bounds
index before any mutation; otherwise toggles the item, distributes the
empty space, lays out and saves proportions. -/
def setViewVisible (s : SplitView) (index : ℤ) (visible : Bool) :
    Except String SplitView :=
  if index < 0 ∨ (s.viewItems.length : ℤ) ≤ index then
    .error "Index out of bounds"
  else
    let i := index.toNat
    let it := itemAt s i
    let s := { s with viewItems := s.viewItems.set i (it.setVisible visible none) }
    .ok (saveProportions (layoutViews (distributeEmptySpace none s)))

/-- The engine callbacks visible to the binding. -/
inductive EngineCallback where
  | dragStart
  | change
  | dragEnd
deriving DecidableEq

/-- `SplitView.onSashChange`: resize with the captured drag state, then
distribute and lay out. -/
def onSashChange (s : SplitView) (current : ℚ) : SplitView :=
  match s.sashDragState with
  | none => s
  | some d =>
    let delta := current - d.start
    layoutViews (distributeEmptySpace none
      (resize s d.index delta (some d.sizes) [] [] (some d.minDelta)
        (some d.maxDelta) d.snapBefore d.snapAfter))

/-- `SplitView.onSashEnd`: clear the drag state, save proportions, then
invoke `onDidChange` with the sizes. -/
def onSashEnd (s : SplitView) : SplitView × List EngineCallback :=
  let s := saveProportions { s with sashDragState := none }
  (s, [EngineCallback.change])

/-- The sash `start` listener installed by `addView`: record the drag
state, then invoke `onDidDragStart`. -/
def sashStartHandler (s : SplitView) (index : ℕ) (start current : ℚ) :
    SplitView × List EngineCallback :=
  (onSashStart s index start current, [EngineCallback.dragStart])

/-- The sash `change` listener: `onSashChange` only (no public callback). -/
def sashChangeHandler (s : SplitView) (current : ℚ) :
    SplitView × List EngineCallback :=
  (onSashChange s current, [])

/-- The sash `end` listener installed by `addView`: `onSashEnd` (which
fires `onDidChange`), then `onDidDragEnd`. -/
def sashEndHandler (s : SplitView) : SplitView × List EngineCallback :=
  let r := onSashEnd s
  (r.1, r.2 ++ [EngineCallback.dragEnd])

/-- Run a sequence of `change` events, concatenating the emitted
callbacks. -/
def runChanges : SplitView → List ℚ → SplitView × List EngineCallback
  | s, [] => (s, [])
  | s, c :: rest =>
    let r1 := sashChangeHandler s c
    let r2 := runChanges r1.1 rest
    (r2.1, r1.2 ++ r2.2)

/-- The callback trace of one complete interactive drag: `start`, a list of
`change` events, `end`. -/
def dragTrace (s : SplitView) (index : ℕ) (start : ℚ) (currents : List ℚ) :
    List EngineCallback :=
  let r1 := sashStartHandler s index start start
  let r2 := runChanges r1.1 currents
  let r3 := sashEndHandler r2.1
  r1.2 ++ r2.2 ++ r3.2

/-! ## Invariant vocabulary -/

/-- The view contract of spec section 3: `minimumSize ≤ maximumSize`. -/
def wfView (v : View) : Prop := v.minimumSize ≤ v.maximumSize

/-- Property P1 for one item: a visible item's size lies within its view's
declared bounds. -/
def itemGood (it : ViewItem) : Prop :=
  it.visible = true → it.view.minimumSize ≤ it.size ∧ it.size ≤ it.view.maximumSize

/-- Property P1 over an item list. -/
def GoodItems (l : List ViewItem) : Prop := ∀ it ∈ l, itemGood it

/-- Property P1 over an engine state. -/
def Good (s : SplitView) : Prop := GoodItems s.viewItems

/-- All views of an item list satisfy the view contract. -/
def wfItems (l : List ViewItem) : Prop := ∀ it ∈ l, wfView it.view

/-- All views of an engine state satisfy the view contract. -/
def wfState (s : SplitView) : Prop := wfItems s.viewItems

instance (v : View) : Decidable (wfView v) := by unfold wfView; infer_instance

instance (it : ViewItem) : Decidable (itemGood it) := by
  unfold itemGood; infer_instance

instance (l : List ViewItem) : Decidable (GoodItems l) := by
  unfold GoodItems; infer_instance

instance (s : SplitView) : Decidable (Good s) := by unfold Good; infer_instance

instance (l : List ViewItem) : Decidable (wfItems l) := by
  unfold wfItems; infer_instance

instance (s : SplitView) : Decidable (wfState s) := by
  unfold wfState; infer_instance

/-! ## Arithmetic and list helper lemmas -/

lemma foldl_add_eq (f : ℕ → ℚ) :
    ∀ (l : List ℕ) (c : ℚ), l.foldl (fun r i => r + f i) c = c + (l.map f).sum
  | [], c => by simp
  | i :: rest, c => by
    rw [List.foldl_cons, foldl_add_eq f rest (c + f i)]
    simp [add_assoc]

lemma sumSizes_eq (l : List ViewItem) :
    sumSizes l = (l.map ViewItem.size).sum := by
  have h : ∀ (l' : List ViewItem) (c : ℚ),
      l'.foldl (fun r it => r + it.size) c = c + (l'.map ViewItem.size).sum := by
    intro l'
    induction l' with
    | nil => simp
    | cons a t ih => intro c; rw [List.foldl_cons, ih]; simp [add_assoc]
  simpa using h l 0

lemma le_clampQ (x lo hi : ℚ) : lo ≤ clampQ x lo hi := le_max_right _ _

lemma clampQ_le (x lo hi hi' : ℚ) (h1 : lo ≤ hi) (h2 : hi' ≤ hi) :
    clampQ x lo hi' ≤ hi :=
  max_le (le_trans (min_le_right _ _) h2) h1

lemma mem_rangeDownFrom (j i : ℕ) : j ∈ rangeDownFrom i ↔ j ≤ i := by
  simp [rangeDownFrom, Nat.lt_succ_iff]

lemma mem_rangeFromTo (j a b : ℕ) : j ∈ rangeFromTo a b ↔ a ≤ j ∧ j < b := by
  unfold rangeFromTo
  constructor
  · intro h
    obtain ⟨i, hi, hgi⟩ := List.getElem_of_mem h
    have hlen : ((List.range b).drop a).length = b - a := by simp
    rw [List.getElem_drop] at hgi
    have hab : a + i < b := by
      have := hi; rw [hlen] at this; omega
    rw [List.getElem_range] at hgi
    omega
  · intro ⟨h1, h2⟩
    have hj : j = a + (j - a) := by omega
    rw [hj]
    have hlen : j - a < ((List.range b).drop a).length := by simp; omega
    have := List.getElem_mem hlen
    rwa [List.getElem_drop, List.getElem_range] at this

lemma mem_pushToStart (l : List ℕ) (v j : ℕ) :
    j ∈ pushToStart l v ↔ j ∈ l := by
  unfold pushToStart
  by_cases hv : v ∈ l
  · simp only [if_pos hv, List.mem_cons]
    by_cases hj : j = v
    · subst hj; simp [hv]
    · simp [hj, List.mem_erase_of_ne hj]
  · simp [if_neg hv]

lemma mem_pushToEnd (l : List ℕ) (v j : ℕ) :
    j ∈ pushToEnd l v ↔ j ∈ l := by
  unfold pushToEnd
  by_cases hv : v ∈ l
  · simp only [if_pos hv, List.mem_append, List.mem_singleton]
    by_cases hj : j = v
    · subst hj; simp [hv]
    · simp [hj, List.mem_erase_of_ne hj]
  · simp [if_neg hv]

lemma mem_foldl_pushToStart (pris : List ℕ) :
    ∀ (l : List ℕ) (j : ℕ), j ∈ pris.foldl pushToStart l ↔ j ∈ l := by
  induction pris with
  | nil => simp
  | cons p rest ih =>
    intro l j
    rw [List.foldl_cons, ih, mem_pushToStart]

lemma mem_foldl_pushToEnd (pris : List ℕ) :
    ∀ (l : List ℕ) (j : ℕ), j ∈ pris.foldl pushToEnd l ↔ j ∈ l := by
  induction pris with
  | nil => simp
  | cons p rest ih =>
    intro l j
    rw [List.foldl_cons, ih, mem_pushToEnd]

/-! ## Item-level bound lemmas -/

lemma visible_setSize (it : ViewItem) (x : ℚ) :
    ({ it with size := x } : ViewItem).visible = it.visible := rfl

lemma itemGood_clampWrite (it : ViewItem) (x : ℚ) (h : wfView it.view) :
    itemGood { it with size := clampQ x it.minimumSize it.maximumSize } := by
  intro hv
  rw [visible_setSize] at hv
  have hmin : it.minimumSize = it.view.minimumSize := by
    simp [ViewItem.minimumSize, hv]
  have hmax : it.maximumSize = it.view.maximumSize := by
    simp [ViewItem.maximumSize, hv]
  constructor
  · rw [← hmin]; exact le_clampQ _ _ _
  · exact clampQ_le _ _ _ _ (by rw [hmin]; exact h) (le_of_eq hmax)

lemma itemGood_clampWriteMin (it : ViewItem) (x T : ℚ) (h : wfView it.view) :
    itemGood { it with size := clampQ x it.minimumSize (min it.maximumSize T) } := by
  intro hv
  rw [visible_setSize] at hv
  have hmin : it.minimumSize = it.view.minimumSize := by
    simp [ViewItem.minimumSize, hv]
  have hmax : it.maximumSize = it.view.maximumSize := by
    simp [ViewItem.maximumSize, hv]
  constructor
  · rw [← hmin]; exact le_clampQ _ _ _
  · exact clampQ_le _ _ _ _ (by rw [hmin]; exact h)
      (le_trans (min_le_left _ _) (le_of_eq hmax))

lemma view_setVisible (it : ViewItem) (b : Bool) (arg : Option ℚ) :
    (it.setVisible b arg).view = it.view := by
  unfold ViewItem.setVisible
  split_ifs <;> rfl

lemma itemGood_setVisible (it : ViewItem) (b : Bool) (arg : Option ℚ)
    (hwf : wfView it.view) (hg : itemGood it) : itemGood (it.setVisible b arg) := by
  unfold ViewItem.setVisible
  split_ifs with h1 h2
  · exact hg
  · intro _
    exact ⟨le_clampQ _ _ _, clampQ_le _ _ _ _ hwf le_rfl⟩
  · intro hv
    simp [ViewItem.visible] at hv

lemma goodItems_set (l : List ViewItem) (i : ℕ) (b : ViewItem)
    (hg : GoodItems l) (hb : itemGood b) : GoodItems (l.set i b) := by
  intro it hit
  rcases List.mem_or_eq_of_mem_set hit with h | h
  · exact hg it h
  · subst h; exact hb

lemma wfItems_set (l : List ViewItem) (i : ℕ) (b : ViewItem)
    (hw : wfItems l) (hb : wfView b.view) : wfItems (l.set i b) := by
  intro it hit
  rcases List.mem_or_eq_of_mem_set hit with h | h
  · exact hw it h
  · subst h; exact hb

lemma wfItems_insertIdx (l : List ViewItem) (n : ℕ) (a : ViewItem)
    (hn : n ≤ l.length) (hw : wfItems l) (ha : wfView a.view) :
    wfItems (l.insertIdx n a) := by
  intro it hit
  rcases (List.mem_insertIdx hn).mp hit with h | h
  · subst h; exact ha
  · exact hw it h

lemma wfItems_eraseIdx (l : List ViewItem) (n : ℕ) (hw : wfItems l) :
    wfItems (l.eraseIdx n) :=
  fun it hit => hw it (List.mem_of_mem_eraseIdx hit)

lemma goodItems_iff_get? (l : List ViewItem) :
    GoodItems l ↔ ∀ j it, l.get? j = some it → itemGood it := by
  constructor
  · intro hg j it hit
    exact hg it (List.get?_mem hit)
  · intro h it hit
    obtain ⟨n, hn⟩ := List.mem_iff_get?.mp hit
    exact h n it hn

/-! ## Fold lemmas for the resize and distribute loops -/

lemma stepUp_pres (acc : List ViewItem × ℚ) (p : ℕ × ℚ)
    (hw : wfItems acc.1) (hg : GoodItems acc.1) :
    wfItems (stepUp acc p).1 ∧ GoodItems (stepUp acc p).1 ∧
      (stepUp acc p).1.length = acc.1.length := by
  unfold stepUp
  cases hgt : acc.1.get? p.1 with
  | none => exact ⟨hw, hg, rfl⟩
  | some it =>
    have hmem : it ∈ acc.1 := List.get?_mem hgt
    exact ⟨wfItems_set _ _ _ hw (hw it hmem),
      goodItems_set _ _ _ hg (itemGood_clampWrite it _ (hw it hmem)), by simp⟩

lemma stepDown_pres (acc : List ViewItem × ℚ) (p : ℕ × ℚ)
    (hw : wfItems acc.1) (hg : GoodItems acc.1) :
    wfItems (stepDown acc p).1 ∧ GoodItems (stepDown acc p).1 ∧
      (stepDown acc p).1.length = acc.1.length := by
  unfold stepDown
  cases hgt : acc.1.get? p.1 with
  | none => exact ⟨hw, hg, rfl⟩
  | some it =>
    have hmem : it ∈ acc.1 := List.get?_mem hgt
    exact ⟨wfItems_set _ _ _ hw (hw it hmem),
      goodItems_set _ _ _ hg (itemGood_clampWrite it _ (hw it hmem)), by simp⟩

lemma distStep_pres (acc : List ViewItem × ℚ) (i : ℕ)
    (hw : wfItems acc.1) (hg : GoodItems acc.1) :
    wfItems (distStep acc i).1 ∧ GoodItems (distStep acc i).1 ∧
      (distStep acc i).1.length = acc.1.length := by
  unfold distStep
  split_ifs with h0
  · exact ⟨hw, hg, rfl⟩
  · cases hgt : acc.1.get? i with
    | none => exact ⟨hw, hg, rfl⟩
    | some it =>
      have hmem : it ∈ acc.1 := List.get?_mem hgt
      exact ⟨wfItems_set _ _ _ hw (hw it hmem),
        goodItems_set _ _ _ hg (itemGood_clampWrite it _ (hw it hmem)), by simp⟩

lemma stepDown_foldl_pres (ps : List (ℕ × ℚ)) :
    ∀ acc : List ViewItem × ℚ, wfItems acc.1 → GoodItems acc.1 →
      wfItems (ps.foldl stepDown acc).1 ∧ GoodItems (ps.foldl stepDown acc).1 ∧
        (ps.foldl stepDown acc).1.length = acc.1.length := by
  induction ps with
  | nil => intro acc hw hg; exact ⟨hw, hg, rfl⟩
  | cons p rest ih =>
    intro acc hw hg
    rw [List.foldl_cons]
    obtain ⟨hw1, hg1, hl1⟩ := stepDown_pres acc p hw hg
    obtain ⟨hw2, hg2, hl2⟩ := ih _ hw1 hg1
    exact ⟨hw2, hg2, hl2.trans hl1⟩

lemma distStep_foldl_pres (idxs : List ℕ) :
    ∀ acc : List ViewItem × ℚ, wfItems acc.1 → GoodItems acc.1 →
      wfItems (idxs.foldl distStep acc).1 ∧ GoodItems (idxs.foldl distStep acc).1 ∧
        (idxs.foldl distStep acc).1.length = acc.1.length := by
  induction idxs with
  | nil => intro acc hw hg; exact ⟨hw, hg, rfl⟩
  | cons i rest ih =>
    intro acc hw hg
    rw [List.foldl_cons]
    obtain ⟨hw1, hg1, hl1⟩ := distStep_pres acc i hw hg
    obtain ⟨hw2, hg2, hl2⟩ := ih _ hw1 hg1
    exact ⟨hw2, hg2, hl2.trans hl1⟩

lemma stepUp_wf (acc : List ViewItem × ℚ) (p : ℕ × ℚ) (hw : wfItems acc.1) :
    wfItems (stepUp acc p).1 ∧ (stepUp acc p).1.length = acc.1.length := by
  unfold stepUp
  cases hgt : acc.1.get? p.1 with
  | none => exact ⟨hw, rfl⟩
  | some it =>
    exact ⟨wfItems_set _ _ _ hw (hw it (List.get?_mem hgt)), by simp⟩

/-- The up-items loop clamps every index it visits into the item's
effective bounds, and leaves every other index untouched. -/
lemma stepUp_foldl_estab (ps : List (ℕ × ℚ)) :
    ∀ acc : List ViewItem × ℚ, wfItems acc.1 →
      wfItems (ps.foldl stepUp acc).1 ∧
      (ps.foldl stepUp acc).1.length = acc.1.length ∧
      (∀ j, j ∉ ps.map Prod.fst →
        (ps.foldl stepUp acc).1.get? j = acc.1.get? j) ∧
      (∀ j, j ∈ ps.map Prod.fst →
        ∀ it, (ps.foldl stepUp acc).1.get? j = some it → itemGood it) := by
  induction ps with
  | nil =>
    intro acc hw
    exact ⟨hw, rfl, fun j _ => rfl, fun j hj => by simp at hj⟩
  | cons p rest ih =>
    intro acc hw
    rw [List.foldl_cons]
    obtain ⟨hw1, hlen1⟩ := stepUp_wf acc p hw
    have hne : ∀ j, j ≠ p.1 → (stepUp acc p).1.get? j = acc.1.get? j := by
      intro j hj
      unfold stepUp
      cases hgt : acc.1.get? p.1 with
      | none => rfl
      | some it => exact List.get?_set_ne _ _ fun h => hj h.symm
    have hself : ∀ it', (stepUp acc p).1.get? p.1 = some it' → itemGood it' := by
      unfold stepUp
      cases hgt : acc.1.get? p.1 with
      | none =>
        intro it' h
        rw [hgt] at h
        cases h
      | some it =>
        intro it' h
        have hlt : p.1 < acc.1.length := (List.get?_eq_some.mp hgt).1
        rw [List.get?_set_eq_of_lt _ hlt] at h
        cases h
        exact itemGood_clampWrite it _ (hw it (List.get?_mem hgt))
    obtain ⟨hwR, hlenR, huncR, hinR⟩ := ih (stepUp acc p) hw1
    refine ⟨hwR, hlenR.trans hlen1, ?_, ?_⟩
    · intro j hj
      simp only [List.map_cons, List.mem_cons] at hj
      push_neg at hj
      rw [huncR j hj.2, hne j hj.1]
    · intro j hj it hit
      simp only [List.map_cons, List.mem_cons] at hj
      rcases hj with hj | hj
      · subst hj
        by_cases hr : p.1 ∈ rest.map Prod.fst
        · exact hinR _ hr it hit
        · rw [huncR _ hr] at hit
          exact hself it hit
      · exact hinR _ hj it hit

/-- When the up-indexes cover every position of the list, the two resize
walks leave every item within its effective bounds. -/
lemma resizeApply_good (items : List ViewItem) (upIdx downIdx : List ℕ)
    (upSizes downSizes : List ℚ) (delta : ℚ) (hw : wfItems items)
    (hlen : upIdx.length ≤ upSizes.length)
    (hcov : ∀ j, j < items.length → j ∈ upIdx) :
    GoodItems (resizeApply items upIdx downIdx upSizes downSizes delta) ∧
    wfItems (resizeApply items upIdx downIdx upSizes downSizes delta) ∧
    (resizeApply items upIdx downIdx upSizes downSizes delta).length
      = items.length := by
  unfold resizeApply
  have hfst : (upIdx.zip upSizes).map Prod.fst = upIdx :=
    List.map_fst_zip _ _ hlen
  obtain ⟨hwU, hlenU, _, hinU⟩ :=
    stepUp_foldl_estab (upIdx.zip upSizes) (items, delta) hw
  have hgU : GoodItems ((upIdx.zip upSizes).foldl stepUp (items, delta)).1 := by
    rw [goodItems_iff_get?]
    intro j it hit
    have hlt : j < ((upIdx.zip upSizes).foldl stepUp (items, delta)).1.length :=
      (List.get?_eq_some.mp hit).1
    rw [hlenU] at hlt
    exact hinU j (by rw [hfst]; exact hcov j hlt) it hit
  obtain ⟨hwD, hgD, hlenD⟩ := stepDown_foldl_pres (downIdx.zip downSizes)
    (((upIdx.zip upSizes).foldl stepUp (items, delta)).1, delta) hwU hgU
  exact ⟨hgD, hwD, hlenD.trans hlenU⟩

/-! ## State-level lemmas for the engine operations -/

lemma mem_steeredUp (j index : ℕ) (lowP highP : List ℕ) :
    j ∈ steeredUp index lowP highP ↔ j ≤ index := by
  simp [steeredUp, mem_foldl_pushToEnd, mem_foldl_pushToStart, mem_rangeDownFrom]

lemma resizeCore_viewItems (s : SplitView) (index : ℕ) (delta : ℚ)
    (sizes : Option (List ℚ)) (lowP highP : List ℕ) (oMin oMax : Option ℚ) :
    ∃ d : ℚ,
      (resizeCore s index delta sizes lowP highP oMin oMax).viewItems
        = resizeApply s.viewItems (steeredUp index lowP highP)
            (steeredDown index s.viewItems.length lowP highP)
            ((steeredUp index lowP highP).map fun i =>
              (sizes.getD (s.viewItems.map ViewItem.size)).getD i 0)
            ((steeredDown index s.viewItems.length lowP highP).map fun i =>
              (sizes.getD (s.viewItems.map ViewItem.size)).getD i 0)
            d :=
  ⟨_, rfl⟩

lemma resizeCore_good (s : SplitView) (index : ℕ) (delta : ℚ)
    (sizes : Option (List ℚ)) (lowP highP : List ℕ) (oMin oMax : Option ℚ)
    (hw : wfState s) (hcov : ∀ j, j < s.viewItems.length → j ≤ index) :
    Good (resizeCore s index delta sizes lowP highP oMin oMax) ∧
    wfState (resizeCore s index delta sizes lowP highP oMin oMax) ∧
    (resizeCore s index delta sizes lowP highP oMin oMax).viewItems.length
      = s.viewItems.length := by
  obtain ⟨d, hd⟩ := resizeCore_viewItems s index delta sizes lowP highP oMin oMax
  have h := resizeApply_good s.viewItems (steeredUp index lowP highP)
    (steeredDown index s.viewItems.length lowP highP)
    ((steeredUp index lowP highP).map fun i =>
      (sizes.getD (s.viewItems.map ViewItem.size)).getD i 0)
    ((steeredDown index s.viewItems.length lowP highP).map fun i =>
      (sizes.getD (s.viewItems.map ViewItem.size)).getD i 0)
    d hw (by simp) (fun j hj => (mem_steeredUp j index lowP highP).mpr (hcov j hj))
  unfold Good wfState GoodItems wfItems
  rw [hd]
  exact ⟨h.1, h.2.1, h.2.2⟩

lemma applySnaps_none (s : SplitView) (delta : ℚ) :
    applySnaps s delta none none = s := rfl

lemma resize_relayout_good (s : SplitView) (delta : ℚ) (sizes : Option (List ℚ))
    (lowP highP : List ℕ) (hw : wfState s) :
    Good (resize s (s.viewItems.length - 1) delta sizes lowP highP
      none none none none) ∧
    wfState (resize s (s.viewItems.length - 1) delta sizes lowP highP
      none none none none) ∧
    (resize s (s.viewItems.length - 1) delta sizes lowP highP
      none none none none).viewItems.length = s.viewItems.length := by
  unfold resize
  by_cases hguard : s.viewItems.length ≤ s.viewItems.length - 1
  · have hN : s.viewItems.length = 0 := by omega
    rw [if_pos hguard]
    refine ⟨?_, hw, rfl⟩
    intro it hit
    rw [List.length_eq_zero] at hN
    rw [hN] at hit
    cases hit
  · rw [if_neg hguard, applySnaps_none]
    exact resizeCore_good s _ delta sizes lowP highP none none hw
      (fun j hj => by omega)

lemma distributeEmptySpace_pres (lp : Option ℕ) (s : SplitView)
    (hw : wfState s) (hg : Good s) :
    Good (distributeEmptySpace lp s) ∧ wfState (distributeEmptySpace lp s) ∧
    (distributeEmptySpace lp s).viewItems.length = s.viewItems.length := by
  unfold distributeEmptySpace
  split_ifs with h0
  · exact ⟨hg, hw, rfl⟩
  · have hw' : wfItems s.viewItems := hw
    have hg' : GoodItems s.viewItems := hg
    exact ⟨(distStep_foldl_pres _ (s.viewItems, _) hw' hg').2.1,
      (distStep_foldl_pres _ (s.viewItems, _) hw' hg').1,
      (distStep_foldl_pres _ (s.viewItems, _) hw' hg').2.2⟩

lemma layoutViews_viewItems (s : SplitView) :
    (layoutViews s).viewItems = s.viewItems := rfl

lemma saveProportions_viewItems (s : SplitView) :
    (saveProportions s).viewItems = s.viewItems := by
  unfold saveProportions
  split_ifs <;> rfl

lemma good_congr (s s' : SplitView) (h : s'.viewItems = s.viewItems)
    (hg : Good s) : Good s' := by
  unfold Good GoodItems at *
  rw [h]
  exact hg

lemma wf_congr (s s' : SplitView) (h : s'.viewItems = s.viewItems)
    (hw : wfState s) : wfState s' := by
  unfold wfState wfItems at *
  rw [h]
  exact hw

lemma relayout_good (lowP highP : List ℕ) (s : SplitView) (hw : wfState s) :
    Good (relayout lowP highP s) ∧ wfState (relayout lowP highP s) ∧
    (relayout lowP highP s).viewItems.length = s.viewItems.length := by
  unfold relayout
  obtain ⟨hg1, hw1, hl1⟩ := resize_relayout_good s _ none lowP highP hw
  obtain ⟨hg2, hw2, hl2⟩ := distributeEmptySpace_pres none _ hw1 hg1
  have hv : (saveProportions (layoutViews (distributeEmptySpace none
      (resize s (s.viewItems.length - 1) (s.size - sumSizes s.viewItems) none
        lowP highP none none none none)))).viewItems
      = (distributeEmptySpace none
          (resize s (s.viewItems.length - 1) (s.size - sumSizes s.viewItems) none
            lowP highP none none none none)).viewItems := by
    rw [saveProportions_viewItems, layoutViews_viewItems]
  refine ⟨good_congr _ _ hv hg2, wf_congr _ _ hv hw2, ?_⟩
  rw [hv]
  exact hl2.trans hl1

lemma itemAt_get (s : SplitView) (j : ℕ) (h : j < s.viewItems.length) :
    itemAt s j = s.viewItems.get ⟨j, h⟩ := by
  unfold itemAt itemAtL
  rw [show s.viewItems.getD j default
    = (s.viewItems.get? j).getD default from rfl, List.get?_eq_get h]
  rfl

lemma itemAt_mem (s : SplitView) (j : ℕ) (h : j < s.viewItems.length) :
    itemAt s j ∈ s.viewItems := by
  rw [itemAt_get s j h]
  exact List.get_mem _ _ _

lemma distThenViews_good (s : SplitView) (hw : wfState s) (hg : Good s) :
    Good (layoutViews (distributeEmptySpace none s)) ∧
    wfState (layoutViews (distributeEmptySpace none s)) := by
  obtain ⟨hg1, hw1, _⟩ := distributeEmptySpace_pres none s hw hg
  exact ⟨good_congr _ _ (layoutViews_viewItems _) hg1,
    wf_congr _ _ (layoutViews_viewItems _) hw1⟩

lemma propPhase_pres (ps : List ℚ) (sz : ℚ) :
    ∀ (l : List ViewItem) (n : ℕ), wfItems l → GoodItems l →
      wfItems (propPhase ps sz n l) ∧ GoodItems (propPhase ps sz n l) ∧
        (propPhase ps sz n l).length = l.length := by
  intro l
  induction l with
  | nil =>
    intro n _ _
    refine ⟨?_, ?_, rfl⟩ <;> intro it hit <;> (rw [propPhase] at hit; cases hit)
  | cons a rest ih =>
    intro n hw hg
    have hwa : wfView a.view := hw a (by simp)
    have hga : itemGood a := hg a (by simp)
    have hwr : wfItems rest := fun it hit => hw it (List.mem_cons_of_mem _ hit)
    have hgr : GoodItems rest := fun it hit => hg it (List.mem_cons_of_mem _ hit)
    obtain ⟨hw2, hg2, hl2⟩ := ih (n + 1) hwr hgr
    have hhead : wfView (match ps.get? n with
        | some p => { a with
            size := clampQ (jsRound (p * sz)) a.minimumSize a.maximumSize }
        | none => a).view ∧ itemGood (match ps.get? n with
        | some p => { a with
            size := clampQ (jsRound (p * sz)) a.minimumSize a.maximumSize }
        | none => a) := by
      cases ps.get? n with
      | some p => exact ⟨hwa, itemGood_clampWrite a _ hwa⟩
      | none => exact ⟨hwa, hga⟩
    refine ⟨?_, ?_, ?_⟩
    · intro it hit
      rw [propPhase] at hit
      rcases List.mem_cons.mp hit with h | h
      · subst h; exact hhead.1
      · exact hw2 it h
    · intro it hit
      rw [propPhase] at hit
      rcases List.mem_cons.mp hit with h | h
      · subst h; exact hhead.2
      · exact hg2 it h
    · rw [propPhase]
      simp [hl2]

lemma layout_eq_zero (S : ℚ) (s : SplitView) (h0 : s.viewItems.length = 0) :
    layout S s = s := by
  rw [layout, if_pos h0]

lemma layout_eq_prop (S : ℚ) (s : SplitView) (ps : List ℚ)
    (hps : s.proportions = some ps) (h0 : ¬s.viewItems.length = 0) :
    layout S s = layoutViews (distributeEmptySpace none
      ({ s with size := S, viewItems := propPhase ps S 0 s.viewItems } :
        SplitView)) := by
  simp only [layout, if_neg h0, hps]

lemma layout_eq_none (S : ℚ) (s : SplitView)
    (hps : s.proportions = none) (h0 : ¬s.viewItems.length = 0) :
    layout S s = layoutViews (distributeEmptySpace none
      (resize ({ s with size := S } : SplitView) (s.viewItems.length - 1)
        (S - max s.size s.contentSize) none
        ((rangeFromTo 0 s.viewItems.length).filter fun i =>
          decide ((itemAtL s.viewItems i).priority = some LayoutPriority.Low))
        ((rangeFromTo 0 s.viewItems.length).filter fun i =>
          decide ((itemAtL s.viewItems i).priority = some LayoutPriority.High))
        none none none none)) := by
  simp only [layout, if_neg h0, hps]

lemma layout_good (S : ℚ) (s : SplitView) (hw : wfState s) (hg : Good s) :
    Good (layout S s) ∧ wfState (layout S s) := by
  by_cases h0 : s.viewItems.length = 0
  · rw [layout_eq_zero S s h0]
    exact ⟨hg, hw⟩
  · cases hps : s.proportions with
    | some ps =>
      rw [layout_eq_prop S s ps hps h0]
      have hw' : wfItems s.viewItems := hw
      have hg' : GoodItems s.viewItems := hg
      obtain ⟨hwp, hgp, _⟩ := propPhase_pres ps S s.viewItems 0 hw' hg'
      exact distThenViews_good _ hwp hgp
    | none =>
      rw [layout_eq_none S s hps h0]
      obtain ⟨hg1, hw1, _⟩ :=
        resize_relayout_good ({ s with size := S } : SplitView) _ none _ _ hw
      exact distThenViews_good _ hw1 hg1

lemma wfItems_equalizeFlexible (l : List ViewItem) (hw : wfItems l) :
    wfItems (equalizeFlexible l) := by
  simp only [equalizeFlexible]
  split_ifs with h
  · exact hw
  · intro it hit
    obtain ⟨a, ha, rfl⟩ := List.mem_map.mp hit
    have hwa := hw a ha
    split_ifs <;> exact hwa

lemma distributeViewSizes_good (s : SplitView) (hw : wfState s) :
    Good (distributeViewSizes s) ∧ wfState (distributeViewSizes s) := by
  unfold distributeViewSizes
  have hwX : wfState ({ s with viewItems := equalizeFlexible s.viewItems } :
      SplitView) := wfItems_equalizeFlexible s.viewItems hw
  exact ⟨(relayout_good _ _ _ hwX).1, (relayout_good _ _ _ hwX).2.1⟩

lemma addView_good (s : SplitView) (v : View) (sz : Sizing) (idx : ℕ)
    (hw : wfState s) (hv : wfView v) :
    Good (addView s v sz idx false) ∧ wfState (addView s v sz idx false) := by
  have key : ∀ item : ViewItem, item.view = v →
      Good (relayout [] [] ({ s with
        viewItems := s.viewItems.insertIdx (min idx s.viewItems.length) item
        sashCount := if 1 < s.viewItems.length + 1 then s.sashCount + 1
          else s.sashCount } : SplitView)) ∧
      wfState (relayout [] [] ({ s with
        viewItems := s.viewItems.insertIdx (min idx s.viewItems.length) item
        sashCount := if 1 < s.viewItems.length + 1 then s.sashCount + 1
          else s.sashCount } : SplitView)) := by
    intro item hview
    have hwX : wfState ({ s with
        viewItems := s.viewItems.insertIdx (min idx s.viewItems.length) item
        sashCount := if 1 < s.viewItems.length + 1 then s.sashCount + 1
          else s.sashCount } : SplitView) :=
      wfItems_insertIdx _ _ _ (min_le_right _ _) hw (hview ▸ hv)
    exact ⟨(relayout_good [] [] _ hwX).1, (relayout_good [] [] _ hwX).2.1⟩
  cases sz with
  | exact q => exact key ⟨v, q, none⟩ rfl
  | split j => exact key ⟨v, getViewSize s j / 2, none⟩ rfl
  | invisible c => exact key ⟨v, 0, some c⟩ rfl
  | distribute =>
    have h1 := key ⟨v, v.minimumSize, none⟩ rfl
    have heq : addView s v Sizing.distribute idx false
        = distributeViewSizes (relayout [] [] ({ s with
            viewItems := s.viewItems.insertIdx (min idx s.viewItems.length)
              ⟨v, v.minimumSize, none⟩
            sashCount := if 1 < s.viewItems.length + 1 then s.sashCount + 1
              else s.sashCount } : SplitView)) := by
      simp only [addView, Bool.false_eq_true, not_false_eq_true, and_true,
        if_true, if_false]
    rw [heq]
    exact ⟨(distributeViewSizes_good _ h1.2).1,
      (distributeViewSizes_good _ h1.2).2⟩

lemma removeView_good (s : SplitView) (i : ℤ) (rsz : Option Sizing)
    (hw : wfState s) : ∀ w s', removeView s i rsz = .ok (w, s') →
      Good s' ∧ wfState s' := by
  intro w s' h
  by_cases hguard : i < 0 ∨ (s.viewItems.length : ℤ) ≤ i
  · rw [removeView, if_pos hguard] at h
    exact Except.noConfusion h
  · simp only [removeView, if_neg hguard, Except.ok.injEq, Prod.mk.injEq] at h
    obtain ⟨-, hs'⟩ := h
    have hwX : wfState ({ s with
        viewItems := s.viewItems.eraseIdx i.toNat
        sashCount := if 1 < s.viewItems.length then s.sashCount - 1
          else s.sashCount } : SplitView) :=
      wfItems_eraseIdx _ _ hw
    by_cases hd : rsz = some Sizing.distribute
    · rw [if_pos hd] at hs'
      subst hs'
      exact distributeViewSizes_good _ (relayout_good [] [] _ hwX).2.1
    · rw [if_neg hd] at hs'
      subst hs'
      exact ⟨(relayout_good [] [] _ hwX).1, (relayout_good [] [] _ hwX).2.1⟩

lemma removeView_ok_view (s : SplitView) (i : ℤ) (rsz : Option Sizing)
    (w : View) (s' : SplitView) (h : removeView s i rsz = .ok (w, s'))
    (hw : wfState s) : wfView w := by
  by_cases hguard : i < 0 ∨ (s.viewItems.length : ℤ) ≤ i
  · rw [removeView, if_pos hguard] at h
    exact Except.noConfusion h
  · simp only [removeView, if_neg hguard, Except.ok.injEq, Prod.mk.injEq] at h
    obtain ⟨hv, -⟩ := h
    push_neg at hguard
    have hlt : i.toNat < s.viewItems.length := by omega
    exact hv ▸ hw _ (itemAt_mem s i.toNat hlt)

lemma moveView_good (s : SplitView) (f : ℤ) (t : ℕ) (hw : wfState s) :
    ∀ s', moveView s f t = .ok s' → Good s' ∧ wfState s' := by
  intro s' h
  rw [moveView] at h
  cases hc : getViewCachedVisibleSize s f with
  | error e =>
    rw [hc] at h
    exact Except.noConfusion h
  | ok cached =>
    rw [hc] at h
    cases hr : removeView s f none with
    | error e =>
      rw [hr] at h
      exact Except.noConfusion h
    | ok p =>
      rw [hr] at h
      obtain ⟨w, s2⟩ := p
      simp only [bind, Except.bind, pure, Except.pure, Except.ok.injEq] at h
      subst h
      have hws2 := (removeView_good s f none hw w s2 hr).2
      have hwv := removeView_ok_view s f none w s2 hr hw
      exact addView_good s2 w _ t hws2 hwv

lemma resizeView_good (s : SplitView) (i : ℤ) (q : ℚ)
    (hw : wfState s) (hg : Good s) :
    Good (resizeView s i q) ∧ wfState (resizeView s i q) := by
  by_cases hguard : i < 0 ∨ (s.viewItems.length : ℤ) ≤ i
  · rw [resizeView, if_pos hguard]
    exact ⟨hg, hw⟩
  · push_neg at hguard
    have hlt : i.toNat < s.viewItems.length := by omega
    have hwv : wfView (itemAt s i.toNat).view := hw _ (itemAt_mem s i.toNat hlt)
    rw [resizeView, if_neg (by push_neg; exact hguard)]
    refine ⟨(relayout_good _ _ _ ?_).1, (relayout_good _ _ _ ?_).2.1⟩ <;>
      exact wfItems_set _ _ _ hw hwv

lemma resizeViewsLoop_pres (total : ℚ) (qs : List ℚ) :
    ∀ (idx : ℕ) (items : List ViewItem), wfItems items → GoodItems items →
      wfItems (resizeViewsLoop total idx qs items) ∧
      GoodItems (resizeViewsLoop total idx qs items) := by
  induction qs with
  | nil =>
    intro idx items hw hg
    rw [resizeViewsLoop]
    exact ⟨hw, hg⟩
  | cons q rest ih =>
    intro idx items hw hg
    rw [resizeViewsLoop]
    cases hgt : items.get? idx with
    | none => exact ⟨hw, hg⟩
    | some it =>
      have hit : it ∈ items := List.get?_mem hgt
      exact ih (idx + 1) _
        (wfItems_set _ _ _ hw (hw it hit))
        (goodItems_set _ _ _ hg (itemGood_clampWriteMin it _ _ (hw it hit)))

lemma resizeViews_good (s : SplitView) (qs : List ℚ)
    (hw : wfState s) (hg : Good s) :
    ∀ s', resizeViews s qs = some s' → Good s' ∧ wfState s' := by
  intro s' h
  by_cases hlen : s.viewItems.length < qs.length
  · rw [resizeViews, if_pos hlen] at h
    exact Option.noConfusion h
  · simp only [resizeViews, if_neg hlen, Option.some.injEq] at h
    subst h
    obtain ⟨hwL, hgL⟩ := resizeViewsLoop_pres s.size qs 0 s.viewItems hw hg
    have hwX : wfState (saveProportions ({ s with
        viewItems := resizeViewsLoop s.size 0 qs s.viewItems
        contentSize := sumSizes (resizeViewsLoop s.size 0 qs s.viewItems) } :
          SplitView)) :=
      wf_congr _ _ (saveProportions_viewItems _) hwL
    have hgX : Good (saveProportions ({ s with
        viewItems := resizeViewsLoop s.size 0 qs s.viewItems
        contentSize := sumSizes (resizeViewsLoop s.size 0 qs s.viewItems) } :
          SplitView)) :=
      good_congr _ _ (saveProportions_viewItems _) hgL
    exact layout_good _ _ hwX hgX

lemma setViewVisible_good (s : SplitView) (i : ℤ) (b : Bool)
    (hw : wfState s) (hg : Good s) :
    ∀ s', setViewVisible s i b = .ok s' → Good s' ∧ wfState s' := by
  intro s' h
  by_cases hguard : i < 0 ∨ (s.viewItems.length : ℤ) ≤ i
  · rw [setViewVisible, if_pos hguard] at h
    exact Except.noConfusion h
  · simp only [setViewVisible, if_neg hguard, Except.ok.injEq] at h
    subst h
    push_neg at hguard
    have hlt : i.toNat < s.viewItems.length := by omega
    have hit := itemAt_mem s i.toNat hlt
    have hwX : wfItems (s.viewItems.set i.toNat
        ((itemAt s i.toNat).setVisible b none)) :=
      wfItems_set _ _ _ hw (by rw [view_setVisible]; exact hw _ hit)
    have hgX : GoodItems (s.viewItems.set i.toNat
        ((itemAt s i.toNat).setVisible b none)) :=
      goodItems_set _ _ _ hg (itemGood_setVisible _ _ _ (hw _ hit) (hg _ hit))
    obtain ⟨hg1, hw1, _⟩ := distributeEmptySpace_pres none
      ({ s with
          viewItems :=
            (s.viewItems.set i.toNat ((itemAt s i.toNat).setVisible b none)) } :
        SplitView) hwX hgX
    have hvw : (saveProportions (layoutViews (distributeEmptySpace none
        ({ s with
            viewItems :=
              (s.viewItems.set i.toNat
                ((itemAt s i.toNat).setVisible b none)) } :
          SplitView)))).viewItems
        = (distributeEmptySpace none
            ({ s with
                viewItems :=
                  (s.viewItems.set i.toNat
                    ((itemAt s i.toNat).setVisible b none)) } :
              SplitView)).viewItems := by
      rw [saveProportions_viewItems, layoutViews_viewItems]
    exact ⟨good_congr _ _ hvw hg1, wf_congr _ _ hvw hw1⟩

/-! ## Concrete example states -/

/-- A freshly constructed engine with no descriptor. -/
def emptySplitView : SplitView := ⟨0, 0, none, true, [], 0, none⟩

/-- A view with bounds `[10, 100]` and Normal priority. -/
def vC1 : View := ⟨10, 100, some LayoutPriority.Normal, false⟩

/-- One view of bounds `[0, 100]`, Normal priority, at size 50 in a
container of size 100. -/
def exW : SplitView :=
  ⟨100, 50, none, true, [⟨⟨0, 100, some LayoutPriority.Normal, false⟩, 50, none⟩],
    0, none⟩

/-- A single view of bounds `[10, 100]` at size 50, container 50. -/
def exA : SplitView :=
  ⟨50, 50, none, false, [⟨vC1, 50, none⟩], 0, none⟩

/-! ## Claim C1 -/

/-- C1 (amended): after every public mutator other than `addView` with
`skipLayout` set — `addView` without `skipLayout` (with any sizing,
including an exact pixel size outside the view's bounds), `removeView`,
`moveView`, `layout`, `resizeView`, `resizeViews`, `setViewVisible` and
`distributeViewSizes` — every visible view item satisfies
`minimumSize ≤ size ≤ maximumSize`, provided every view satisfies the
spec's view contract `min ≤ max` and the invariant held before the call.
(The claim as frozen also asserted this for `addView` with `skipLayout`
set, which the code violates: see the counterexample.) -/
theorem C1_bounds_amended (s : SplitView) (v : View) (sz : Sizing) (idx : ℕ)
    (i : ℤ) (b : Bool) (q S : ℚ) (qs : List ℚ) (rsz : Option Sizing)
    (f : ℤ) (t : ℕ) (hw : wfState s) (hv : wfView v) (hg : Good s) :
    Good (addView s v sz idx false) ∧
    (∀ w s', removeView s i rsz = .ok (w, s') → Good s') ∧
    (∀ s', moveView s f t = .ok s' → Good s') ∧
    Good (layout S s) ∧
    Good (resizeView s i q) ∧
    (∀ s', resizeViews s qs = some s' → Good s') ∧
    (∀ s', setViewVisible s i b = .ok s' → Good s') ∧
    Good (distributeViewSizes s) :=
  ⟨(addView_good s v sz idx hw hv).1,
   fun w s' h => (removeView_good s i rsz hw w s' h).1,
   fun s' h => (moveView_good s f t hw s' h).1,
   (layout_good S s hw hg).1,
   (resizeView_good s i q hw hg).1,
   fun s' h => (resizeViews_good s qs hw hg s' h).1,
   fun s' h => (setViewVisible_good s i b hw hg s' h).1,
   (distributeViewSizes_good s hw).1⟩

/-- C1 (counterexample): `addView` with an exact pixel size of 5 (below the
view's minimum of 10) and `skipLayout` set returns with the inserted item
visible at size 5, violating `minimumSize ≤ size`, because `skipLayout`
skips the relayout that would clamp it. -/
theorem C1_counterexample :
    ¬Good (addView emptySplitView vC1 (Sizing.exact 5) 0 true) ∧
    wfView vC1 ∧
    (addView emptySplitView vC1 (Sizing.exact 5) 0 true).viewItems.map
      (fun it => (it.visible, it.size)) = [(true, 5)] := by
  decide

/-- Witness for C1: the amended theorem applied to a concrete good state. -/
theorem C1_bounds_amended_witness :
    (wfState exW ∧ wfView vC1 ∧ Good exW) ∧
    Good (addView exW vC1 (Sizing.exact 5) 0 false) :=
  ⟨⟨by decide, by decide, by decide⟩,
    (C1_bounds_amended exW vC1 (Sizing.exact 5) 0 0 false 60 100 [70] none 0 0
      (by decide) (by decide) (by decide)).1⟩

/-! ## Claims C8 and C9 -/

/-- C8: out-of-range indexes on `removeView`, `setViewVisible` and
`isViewVisible` throw the literal error "Index out of bounds"; the checks
run before any mutation, so the engine state is unchanged (the model
returns the error without producing a successor state). -/
theorem C8_oob_errors (s : SplitView) (i : ℤ) (rsz : Option Sizing) (b : Bool)
    (h : i < 0 ∨ (s.viewItems.length : ℤ) ≤ i) :
    removeView s i rsz = .error "Index out of bounds" ∧
    setViewVisible s i b = .error "Index out of bounds" ∧
    isViewVisible s i = .error "Index out of bounds" :=
  ⟨by rw [removeView, if_pos h], by rw [setViewVisible, if_pos h],
    by rw [isViewVisible, if_pos h]⟩

/-- Witness for C8 at index 5 of a one-item engine. -/
theorem C8_oob_errors_witness :
    ((5 : ℤ) < 0 ∨ (exW.viewItems.length : ℤ) ≤ 5) ∧
    removeView exW 5 none = .error "Index out of bounds" ∧
    setViewVisible exW 5 false = .error "Index out of bounds" ∧
    isViewVisible exW 5 = .error "Index out of bounds" :=
  ⟨by decide, C8_oob_errors exW 5 none false (by decide)⟩

/-- C9: an out-of-range index on `getViewSize` returns `-1` without
throwing, and `resizeView` with an out-of-range index is a silent no-op
that returns the state completely unchanged. -/
theorem C9_oob_soft (s : SplitView) (i : ℤ) (q : ℚ)
    (h : i < 0 ∨ (s.viewItems.length : ℤ) ≤ i) :
    getViewSize s i = -1 ∧ resizeView s i q = s :=
  ⟨by rw [getViewSize, if_pos h], by rw [resizeView, if_pos h]⟩

/-- Witness for C9 at index -3 of a one-item engine. -/
theorem C9_oob_soft_witness :
    ((-3 : ℤ) < 0 ∨ (exW.viewItems.length : ℤ) ≤ -3) ∧
    getViewSize exW (-3) = -1 ∧ resizeView exW (-3) 70 = exW :=
  ⟨by decide, C9_oob_soft exW (-3) 70 (by decide)⟩

/-! ## Claim C10 -/

lemma get?_insertIdx_self {α : Type} (l : List α) (n : ℕ) (a : α)
    (h : n ≤ l.length) : (l.insertIdx n a).get? n = some a := by
  have hl : n < (l.insertIdx n a).length := by
    rw [List.length_insertIdx n l h]
    omega
  rw [List.get?_eq_getElem?, List.getElem?_eq_getElem hl]
  simp [List.getElem_insertIdx_self l a n h]

/-- C10: `addView` with sizing `Split(j)` never validates `j` and never
throws (the model's `addView` is total and always inserts); the inserted
item's initial size is `getViewSize(j) / 2`, which for an out-of-range `j`
is `-1 / 2 = -0.5`; the subsequent relayout clamps sizes back into bounds,
shown on a concrete engine where the inserted item ends at its minimum. -/
theorem C10_split_unvalidated (s : SplitView) (v : View) (j : ℤ) (idx : ℕ)
    (h : j < 0 ∨ (s.viewItems.length : ℤ) ≤ j) :
    getViewSize s j = -1 ∧
    (addView s v (Sizing.split j) idx true).viewItems.get?
      (min idx s.viewItems.length) = some ⟨v, -(1 / 2), none⟩ ∧
    (addView s v (Sizing.split j) idx true).viewItems.length
      = s.viewItems.length + 1 ∧
    (addView exA vC1 (Sizing.split 7) 1 false).viewItems.map ViewItem.size
      = [40, 10] ∧
    Good (addView exA vC1 (Sizing.split 7) 1 false) := by
  have hgv : getViewSize s j = -1 := by rw [getViewSize, if_pos h]
  have heq : addView s v (Sizing.split j) idx true
      = ({ s with
          viewItems := s.viewItems.insertIdx (min idx s.viewItems.length)
            ⟨v, getViewSize s j / 2, none⟩
          sashCount := if 1 < s.viewItems.length + 1 then s.sashCount + 1
            else s.sashCount } : SplitView) := by
    simp only [addView, Bool.true_eq_false, not_true_eq_false, false_and,
      and_false, if_true, if_false, reduceCtorEq, ite_false, ite_true]
  refine ⟨hgv, ?_, ?_, by with_unfolding_all decide, by with_unfolding_all decide⟩
  · rw [heq, hgv]
    have hhalf : (-1 : ℚ) / 2 = -(1 / 2) := by norm_num
    rw [hhalf]
    exact get?_insertIdx_self s.viewItems _ _ (min_le_right _ _)
  · rw [heq]
    exact List.length_insertIdx _ _ (min_le_right _ _)

/-- Witness for C10 at `j = 7` on a one-item engine. -/
theorem C10_split_unvalidated_witness :
    ((7 : ℤ) < 0 ∨ (exW.viewItems.length : ℤ) ≤ 7) ∧
    (addView exW vC1 (Sizing.split 7) 0 true).viewItems.get?
      (min 0 exW.viewItems.length) = some ⟨vC1, -(1 / 2), none⟩ :=
  ⟨by decide, (C10_split_unvalidated exW vC1 7 0 (by decide)).2.1⟩

/-! ## Claim C6 -/

lemma runChanges_trace (cs : List ℚ) : ∀ s : SplitView,
    (runChanges s cs).2 = [] := by
  induction cs with
  | nil => intro s; rfl
  | cons c rest ih =>
    intro s
    rw [runChanges]
    simp [sashChangeHandler, ih]

/-- C6 (amended): a completed interactive drag fires the engine callbacks
in the order `onDidDragStart`, then zero or more internal size mutations
(which fire no public callback), then `onDidChange` (from within
`onSashEnd`), then `onDidDragEnd` — the sash `end` handler calls
`onSashEnd` (which ends with `onDidChange`) before invoking
`onDidDragEnd`. -/
theorem C6_callback_order_amended (s : SplitView) (index : ℕ) (start : ℚ)
    (currents : List ℚ) :
    dragTrace s index start currents
      = [EngineCallback.dragStart, EngineCallback.change,
          EngineCallback.dragEnd] := by
  unfold dragTrace sashStartHandler sashEndHandler onSashEnd
  simp [runChanges_trace]

/-- C6 (counterexample): on a concrete drag the trace is
`[dragStart, change, dragEnd]`, not `[dragStart, dragEnd, change]` — so
`onDidChange` fires before `onDidDragEnd`, contradicting the claim that
`onDidDragEnd` is invoked before `onDidChange`. -/
theorem C6_counterexample :
    dragTrace exW 0 0 [] = [EngineCallback.dragStart, EngineCallback.change,
      EngineCallback.dragEnd] ∧
    dragTrace exW 0 0 [] ≠ [EngineCallback.dragStart, EngineCallback.dragEnd,
      EngineCallback.change] := by
  with_unfolding_all decide

/-! ## Claim C3 -/

/-- C3: `getMinDelta` is the maximum of the two lower bounds — the sum over
up-indexes of `min_k − sizes_k` and the sum over down-indexes of
`sizes_k − max_k` — and `getMaxDelta` is the minimum of the two upper
bounds — the sum over down-indexes of `sizes_k − min_k` and the sum over
up-indexes of `max_k − sizes_k`; `onSashStart` records exactly these values
over the captured sizes vector for every sash index. -/
theorem C3_drag_bounds (s : SplitView) (up down : List ℕ) (sizes : List ℚ)
    (index : ℕ) (st cur : ℚ) :
    getMinDelta s up down sizes
      = max ((up.map fun k => (itemAt s k).minimumSize - sizes.getD k 0).sum)
          ((down.map fun k => sizes.getD k 0 - (itemAt s k).maximumSize).sum) ∧
    getMaxDelta s up down sizes
      = min ((down.map fun k => sizes.getD k 0 - (itemAt s k).minimumSize).sum)
          ((up.map fun k => (itemAt s k).maximumSize - sizes.getD k 0).sum) ∧
    (∀ d, (onSashStart s index st cur).sashDragState = some d →
      d.minDelta = getMinDelta s (rangeDownFrom index)
        (rangeFromTo (index + 1) s.viewItems.length)
        (s.viewItems.map ViewItem.size) ∧
      d.maxDelta = getMaxDelta s (rangeDownFrom index)
        (rangeFromTo (index + 1) s.viewItems.length)
        (s.viewItems.map ViewItem.size)) := by
  refine ⟨?_, ?_, ?_⟩
  · unfold getMinDelta
    rw [foldl_add_eq, foldl_add_eq]
    simp
  · unfold getMaxDelta
    rw [foldl_add_eq, foldl_add_eq]
    simp
  · intro d h
    simp only [onSashStart, Option.some.injEq] at h
    subst h
    exact ⟨rfl, rfl⟩

/-- Witness for C3 on a one-item engine at sash index 0. -/
theorem C3_drag_bounds_witness :
    (onSashStart exW 0 0 0).sashDragState
      = some ⟨0, 0, 0, [50], 0, 0, none, none⟩ ∧
    (0 : ℚ) = getMinDelta exW (rangeDownFrom 0)
      (rangeFromTo 1 exW.viewItems.length) (exW.viewItems.map ViewItem.size) :=
  ⟨by with_unfolding_all decide,
   ((C3_drag_bounds exW [] [] [] 0 0 0).2.2 ⟨0, 0, 0, [50], 0, 0, none, none⟩
     (by with_unfolding_all decide)).1⟩

/-! ## Claim C4 -/

/-- The three-item state of the C4 counterexample: a visible item, a
hidden snap-enabled item with view minimum 10, and a visible item. -/
def v4a : View := ⟨0, 100, some LayoutPriority.Normal, false⟩

/-- The hidden snap target's view: minimum 10, snap enabled. -/
def v4b : View := ⟨10, 100, some LayoutPriority.Normal, true⟩

/-- Engine state with the snap target at index 1 hidden. -/
def ex4 : SplitView :=
  ⟨100, 100, none, true,
    [⟨v4a, 50, none⟩, ⟨v4b, 0, some 10⟩, ⟨v4a, 50, none⟩], 2, none⟩

/-- C4 (amended): at drag start, a snap target that is currently visible
gets `limitDelta = minDelta − floor(min/2)` (above) or
`maxDelta + floor(min/2)` (below), where `min` is the view's declared
minimum; a snap target that is currently hidden has effective
`minimumSize = 0`, so its `halfSize` is 0 and `limitDelta` equals
`minDelta` (above) or `maxDelta` (below) exactly — the half-minimum offset
does not invert, it vanishes. -/
theorem C4_snap_limits_amended (s : SplitView) (index : ℕ) (st cur : ℚ) :
    ∀ d, (onSashStart s index st cur).sashDragState = some d →
      (∀ sb, d.snapBefore = some sb →
        sb.limitDelta = if (itemAt s sb.index).visible then
          d.minDelta - jsFloorQ ((itemAt s sb.index).view.minimumSize / 2)
        else d.minDelta) ∧
      (∀ sa, d.snapAfter = some sa →
        sa.limitDelta = if (itemAt s sa.index).visible then
          d.maxDelta + jsFloorQ ((itemAt s sa.index).view.minimumSize / 2)
        else d.maxDelta) := by
  intro d h
  simp only [onSashStart, Option.some.injEq] at h
  subst h
  constructor
  · intro sb hsb
    obtain ⟨i, hi, hf⟩ := Option.map_eq_some'.mp hsb
    subst hf
    by_cases hvis : (itemAt s i).visible
    · simp [hvis, ViewItem.minimumSize]
    · simp [hvis, ViewItem.minimumSize, jsFloorQ]
  · intro sa hsa
    obtain ⟨i, hi, hf⟩ := Option.map_eq_some'.mp hsa
    subst hf
    by_cases hvis : (itemAt s i).visible
    · simp [hvis, ViewItem.minimumSize]
    · simp [hvis, ViewItem.minimumSize, jsFloorQ]

/-- C4 (counterexample): in `ex4` the hidden snap target below the sash has
view minimum 10, yet its recorded `limitDelta` is `maxDelta` (= 50)
exactly, not `maxDelta − floor(10/2)` (= 45) as the claim's sign-inverted
formula predicts. -/
theorem C4_counterexample :
    (onSashStart ex4 0 0 0).sashDragState
      = some ⟨0, 0, 0, [50, 0, 50], -50, 50, none, some ⟨1, 50, 0⟩⟩ ∧
    (itemAt ex4 1).visible = false ∧
    (itemAt ex4 1).view.minimumSize = 10 ∧
    (50 : ℚ) ≠ 50 - jsFloorQ ((itemAt ex4 1).view.minimumSize / 2) := by
  with_unfolding_all decide

/-- Witness for C4 on `ex4`: the hidden target's recorded limit. -/
theorem C4_snap_limits_amended_witness :
    (onSashStart ex4 0 0 0).sashDragState
      = some ⟨0, 0, 0, [50, 0, 50], -50, 50, none, some ⟨1, 50, 0⟩⟩ ∧
    ((⟨1, 50, 0⟩ : SashDragSnapState).limitDelta
      = if (itemAt ex4 (1 : ℕ)).visible then
          (50 : ℚ) + jsFloorQ ((itemAt ex4 (1 : ℕ)).view.minimumSize / 2)
        else 50) :=
  ⟨by with_unfolding_all decide,
   (C4_snap_limits_amended ex4 0 0 0
     ⟨0, 0, 0, [50, 0, 50], -50, 50, none, some ⟨1, 50, 0⟩⟩
     (by with_unfolding_all decide)).2 ⟨1, 50, 0⟩
     (by with_unfolding_all decide)⟩

/-! ## Claim C2 -/

lemma propPhase_get? (ps : List ℚ) (sz : ℚ) :
    ∀ (l : List ViewItem) (n i : ℕ),
      (propPhase ps sz n l).get? i = (l.get? i).map fun it =>
        match ps.get? (n + i) with
        | some p => { it with
            size := clampQ (jsRound (p * sz)) it.minimumSize it.maximumSize }
        | none => it := by
  intro l
  induction l with
  | nil => intro n i; rw [propPhase]; simp
  | cons a rest ih =>
    intro n i
    cases i with
    | zero =>
      rw [propPhase]
      simp
    | succ k =>
      rw [propPhase]
      simp only [List.get?_cons_succ]
      rw [ih (n + 1) k]
      have hnk : n + (k + 1) = n + 1 + k := by omega
      rw [hnk]

/-- The spec scenario for C2: three flexible views at `[200, 200, 200]` in
a container of 600, with proportions `[1/3, 1/3, 1/3]` saved. -/
def v2 : View := ⟨0, 1000000, some LayoutPriority.Normal, false⟩

/-- Engine state for the C2 scenario. -/
def ex2 : SplitView :=
  ⟨600, 600, some [1 / 3, 1 / 3, 1 / 3], true,
    [⟨v2, 200, none⟩, ⟨v2, 200, none⟩, ⟨v2, 200, none⟩], 2, none⟩

/-- C2: when proportions are cached, `layout(size)` sets every view item
whose proportion is defined to `clamp(round(proportion · size), min, max)`
and only then runs the empty-space pass; in particular, with proportional
layout on and saved sizes `[200, 200, 200]` at container 600, `layout(300)`
yields `[100, 100, 100]`. -/
theorem C2_proportional_layout (s : SplitView) (ps : List ℚ) (sz : ℚ)
    (i : ℕ) (p : ℚ) (it : ViewItem)
    (hps : s.proportions = some ps) (h0 : ¬s.viewItems.length = 0)
    (hp : ps.get? i = some p) (hit : s.viewItems.get? i = some it) :
    (layout sz s = layoutViews (distributeEmptySpace none
      ({ s with size := sz, viewItems := propPhase ps sz 0 s.viewItems } :
        SplitView))) ∧
    ((propPhase ps sz 0 s.viewItems).get? i
      = some { it with
          size := clampQ (jsRound (p * sz)) it.minimumSize it.maximumSize }) ∧
    (layout 300 ex2).viewItems.map ViewItem.size = [100, 100, 100] := by
  refine ⟨layout_eq_prop sz s ps hps h0, ?_, by with_unfolding_all decide⟩
  rw [propPhase_get? ps sz s.viewItems 0 i, hit]
  have hp' : ps[i]? = some p := by
    rw [← List.get?_eq_getElem?]
    exact hp
  simp [hp', hp]

/-- Witness for C2 on the scenario state itself. -/
theorem C2_proportional_layout_witness :
    (ex2.proportions = some [1 / 3, 1 / 3, 1 / 3] ∧
      ¬ex2.viewItems.length = 0 ∧
      ([1 / 3, 1 / 3, 1 / 3] : List ℚ).get? 0 = some (1 / 3) ∧
      ex2.viewItems.get? 0 = some ⟨v2, 200, none⟩) ∧
    (propPhase [1 / 3, 1 / 3, 1 / 3] 300 0 ex2.viewItems).get? 0
      = some { (⟨v2, 200, none⟩ : ViewItem) with
          size := clampQ (jsRound ((1 / 3 : ℚ) * 300))
            (⟨v2, 200, none⟩ : ViewItem).minimumSize
            (⟨v2, 200, none⟩ : ViewItem).maximumSize } :=
  ⟨⟨rfl, by decide, rfl, rfl⟩,
    (C2_proportional_layout ex2 [1 / 3, 1 / 3, 1 / 3] 300 0 (1 / 3)
      ⟨v2, 200, none⟩ rfl (by decide) rfl rfl).2.1⟩

/-! ## Claim C5 -/

lemma distStep_foldl_untouched (idxs : List ℕ) :
    ∀ (acc : List ViewItem × ℚ) (j : ℕ), j ∉ idxs →
      (idxs.foldl distStep acc).1.get? j = acc.1.get? j := by
  induction idxs with
  | nil => intro acc j _; rfl
  | cons i rest ih =>
    intro acc j hj
    have hji : j ≠ i := fun h => hj (h ▸ List.mem_cons_self i rest)
    have hjr : j ∉ rest := fun h => hj (List.mem_cons_of_mem i h)
    rw [List.foldl_cons, ih _ j hjr]
    unfold distStep
    split_ifs with h0
    · rfl
    · cases hgt : acc.1.get? i with
      | none => rfl
      | some it => exact List.get?_set_ne _ _ fun h => hji h.symm

lemma not_mem_distSorted (l : List ViewItem) (lowIdx : Option ℕ) (j : ℕ)
    (hpri : (itemAtL l j).priority = none) :
    j ∉ distSortedIndexes l lowIdx := by
  have hbase : j ∉ (((rangeFromTo 0 l.length).filter fun i =>
      decide ((itemAtL l i).priority = some LayoutPriority.High)) ++
      ((rangeFromTo 0 l.length).filter fun i =>
        decide ((itemAtL l i).priority = some LayoutPriority.Normal))) ++
      ((rangeFromTo 0 l.length).filter fun i =>
        decide ((itemAtL l i).priority = some LayoutPriority.Low)) := by
    intro hmem
    rcases List.mem_append.mp hmem with h | h
    · rcases List.mem_append.mp h with h2 | h2 <;>
      · have hx := (List.mem_filter.mp h2).2
        simp [hpri] at hx
    · have hx := (List.mem_filter.mp h).2
      simp [hpri] at hx
  cases lowIdx with
  | none => exact hbase
  | some i2 =>
    intro hmem
    exact hbase ((mem_pushToEnd _ _ _).mp hmem)

/-- A view that declares no priority. -/
def v5 : View := ⟨0, 100, none, false⟩

/-- One undeclared-priority item at size 0 in a container of 50: the
empty-space pass never visits it. -/
def ex5 : SplitView := ⟨50, 0, none, false, [⟨v5, 0, none⟩], 0, none⟩

/-- Normal-priority view for the visit-order demonstration. -/
def v5n : View := ⟨0, 100, some LayoutPriority.Normal, false⟩

/-- High-priority view for the visit-order demonstration. -/
def v5h : View := ⟨0, 100, some LayoutPriority.High, false⟩

/-- A Normal item at index 0 and a High item at index 1, both at size 50,
container 110: the 10 extra pixels go to the High item first. -/
def ex5b : SplitView :=
  ⟨110, 100, none, false, [⟨v5n, 50, none⟩, ⟨v5h, 50, none⟩], 1, none⟩

/-- C5 (amended): `distributeEmptySpace` visits only the view items whose
view explicitly declares a priority, ordered High, then Normal, then Low
(with the caller-supplied low-priority index moved to the end when it is
among them), growing or shrinking each within its bounds and subtracting
the applied amount from `emptyDelta`, which is checked against 0 before
every item; a view item whose view declares no priority falls in none of
the three filter buckets and is never visited — its size is left
untouched, even when `emptyDelta` is nonzero; on `ex5b` the High item at
index 1 absorbs the whole surplus before the Normal item at index 0. -/
theorem C5_distribute_amended (s : SplitView) (lowIdx : Option ℕ) :
    (∀ j it, s.viewItems.get? j = some it → it.view.priority = none →
      (distributeEmptySpace lowIdx s).viewItems.get? j = some it) ∧
    (wfState s → Good s → Good (distributeEmptySpace lowIdx s)) ∧
    (distributeEmptySpace none ex5b).viewItems.map ViewItem.size
      = [50, 60] := by
  refine ⟨?_, fun hw hg => (distributeEmptySpace_pres lowIdx s hw hg).1,
    by with_unfolding_all decide⟩
  intro j it hit hpri
  by_cases h0 : s.viewItems.length = 0
  · rw [distributeEmptySpace, if_pos h0]
    exact hit
  · have hprAt : (itemAtL s.viewItems j).priority = none := by
      unfold itemAtL ViewItem.priority
      rw [show s.viewItems.getD j default
        = (s.viewItems.get? j).getD default from rfl, hit]
      exact hpri
    have hnm := not_mem_distSorted s.viewItems lowIdx j hprAt
    rw [distributeEmptySpace, if_neg h0]
    exact (distStep_foldl_untouched _ (s.viewItems, _) j hnm).trans hit

/-- C5 (counterexample): in `ex5` the only item declares no priority;
`emptyDelta` is 50 and visiting the item would have grown it to
`clamp(0 + 50, 0, 100) = 50`, but `distributeEmptySpace` returns with the
item still at size 0 — the item is not among the visited candidates,
contradicting the claim that an undeclared priority is treated as
Normal. -/
theorem C5_counterexample :
    (distributeEmptySpace none ex5).viewItems.map ViewItem.size = [0] ∧
    ex5.size - sumSizes ex5.viewItems = 50 ∧
    clampQ (0 + (ex5.size - sumSizes ex5.viewItems))
      (itemAtL ex5.viewItems 0).minimumSize
      (itemAtL ex5.viewItems 0).maximumSize = 50 ∧
    (ex5.viewItems.map fun it => it.view.priority) = [none] ∧
    (0 : ℚ) ≠ 50 := by
  with_unfolding_all decide

/-- Witness for C5: the untouched-item conjunct at the concrete state. -/
theorem C5_distribute_amended_witness :
    (ex5.viewItems.get? 0 = some ⟨v5, 0, none⟩ ∧
      (⟨v5, 0, none⟩ : ViewItem).view.priority = none) ∧
    (distributeEmptySpace none ex5).viewItems.get? 0 = some ⟨v5, 0, none⟩ :=
  ⟨⟨by decide, by decide⟩,
    (C5_distribute_amended ex5 none).1 0 ⟨v5, 0, none⟩ (by decide) (by decide)⟩

/-! ## Claim C7 -/

/-- The size-agnostic part of an item list: views and cached hidden sizes.
Both determine the effective bounds and visibility of every item, so two
lists with the same skeleton react identically to a full proportional
pass. -/
def skeleton (l : List ViewItem) : List (View × Option ℚ) :=
  l.map fun it => (it.view, it.cachedVisibleSize)

lemma length_eq_of_skeleton (l l' : List ViewItem)
    (h : skeleton l = skeleton l') : l.length = l'.length := by
  simpa [skeleton] using congrArg List.length h

lemma skeleton_set (l : List ViewItem) (i : ℕ) (it : ViewItem) (x : ℚ)
    (h : l.get? i = some it) :
    skeleton (l.set i { it with size := x }) = skeleton l := by
  induction l generalizing i with
  | nil => simp at h
  | cons a rest ih =>
    cases i with
    | zero =>
      simp only [List.get?_cons_zero, Option.some.injEq] at h
      subst h
      rfl
    | succ k =>
      simp only [List.get?_cons_succ] at h
      have := ih k h
      simp only [skeleton, List.map_cons] at this ⊢
      rw [List.set_cons_succ, List.map_cons]
      exact congrArg _ this

lemma distStep_skeleton (acc : List ViewItem × ℚ) (i : ℕ) :
    skeleton (distStep acc i).1 = skeleton acc.1 := by
  unfold distStep
  split_ifs with h0
  · rfl
  · cases hgt : acc.1.get? i with
    | none => rfl
    | some it => exact skeleton_set _ _ _ _ hgt

lemma distStep_foldl_skeleton (idxs : List ℕ) :
    ∀ acc : List ViewItem × ℚ,
      skeleton (idxs.foldl distStep acc).1 = skeleton acc.1 := by
  induction idxs with
  | nil => intro acc; rfl
  | cons i rest ih =>
    intro acc
    rw [List.foldl_cons, ih _, distStep_skeleton]

lemma propPhase_skeleton (ps : List ℚ) (sz : ℚ) :
    ∀ (l : List ViewItem) (n : ℕ),
      skeleton (propPhase ps sz n l) = skeleton l := by
  intro l
  induction l with
  | nil => intro n; rw [propPhase]
  | cons a rest ih =>
    intro n
    rw [propPhase]
    have ht := ih (n + 1)
    simp only [skeleton, List.map_cons] at ht ⊢
    cases ps.get? n with
    | none => exact congrArg _ ht
    | some p => exact congrArg _ ht

lemma propPhase_length (ps : List ℚ) (sz : ℚ) (l : List ViewItem) (n : ℕ) :
    (propPhase ps sz n l).length = l.length :=
  length_eq_of_skeleton _ _ (propPhase_skeleton ps sz l n)

lemma propPhase_congr (ps : List ℚ) (sz : ℚ) :
    ∀ (l l' : List ViewItem) (n : ℕ), skeleton l = skeleton l' →
      (∀ i, i < l.length → (ps.get? (n + i)).isSome = true) →
      propPhase ps sz n l = propPhase ps sz n l' := by
  intro l
  induction l with
  | nil =>
    intro l' n hskel _
    cases l' with
    | nil => rfl
    | cons b rest' => simp [skeleton] at hskel
  | cons a rest ih =>
    intro l' n hskel hcov
    cases l' with
    | nil => simp [skeleton] at hskel
    | cons b rest' =>
      simp only [skeleton, List.map_cons, List.cons.injEq, Prod.mk.injEq] at hskel
      obtain ⟨⟨hview, hcached⟩, htail⟩ := hskel
      have hcov0 : (ps.get? n).isSome = true := by
        have := hcov 0 (by simp)
        simpa using this
      have htailgoal : propPhase ps sz (n + 1) rest
          = propPhase ps sz (n + 1) rest' := by
        refine ih rest' (n + 1) htail ?_
        intro i hi
        have := hcov (i + 1) (by simp; omega)
        have hadd : n + (i + 1) = n + 1 + i := by omega
        rwa [hadd] at this
      rw [propPhase, propPhase]
      cases hp : ps.get? n with
      | none =>
        rw [hp] at hcov0
        simp at hcov0
      | some p =>
        have hhead : ({ a with
            size := clampQ (jsRound (p * sz)) a.minimumSize a.maximumSize } :
              ViewItem)
            = { b with
                size := clampQ (jsRound (p * sz)) b.minimumSize b.maximumSize } := by
          obtain ⟨av, asz, ac⟩ := a
          obtain ⟨bv, bsz, bc⟩ := b
          simp only at hview hcached
          subst hview
          subst hcached
          rfl
        show ({ a with
            size := clampQ (jsRound (p * sz)) a.minimumSize a.maximumSize } :
              ViewItem) :: propPhase ps sz (n + 1) rest
          = ({ b with
              size := clampQ (jsRound (p * sz)) b.minimumSize b.maximumSize } :
                ViewItem) :: propPhase ps sz (n + 1) rest'
        rw [hhead, htailgoal]

lemma distributeEmptySpace_skeleton (lp : Option ℕ) (s : SplitView) :
    skeleton (distributeEmptySpace lp s).viewItems = skeleton s.viewItems := by
  unfold distributeEmptySpace
  split_ifs with h0
  · rfl
  · exact distStep_foldl_skeleton _ (s.viewItems, _)

lemma distributeEmptySpace_proportions (lp : Option ℕ) (s : SplitView) :
    (distributeEmptySpace lp s).proportions = s.proportions := by
  unfold distributeEmptySpace
  split_ifs <;> rfl

lemma setItemVisibleAt_proportions (s : SplitView) (i : ℕ) (b : Bool)
    (arg : Option ℚ) : (setItemVisibleAt s i b arg).proportions = s.proportions := by
  unfold setItemVisibleAt
  cases s.viewItems.get? i <;> rfl

lemma applySnaps_proportions (s : SplitView) (delta : ℚ)
    (sb sa : Option SashDragSnapState) :
    (applySnaps s delta sb sa).proportions = s.proportions := by
  cases sb with
  | none =>
    cases sa with
    | none => rfl
    | some sa' => exact setItemVisibleAt_proportions _ _ _ _
  | some sb' =>
    simp only [applySnaps]
    split_ifs
    · exact setItemVisibleAt_proportions _ _ _ _
    · cases sa with
      | none => exact setItemVisibleAt_proportions _ _ _ _
      | some sa' =>
        rw [setItemVisibleAt_proportions]
        exact setItemVisibleAt_proportions _ _ _ _

lemma resize_proportions (s : SplitView) (index : ℕ) (delta : ℚ)
    (sizes : Option (List ℚ)) (lowP highP : List ℕ) (oMin oMax : Option ℚ)
    (sb sa : Option SashDragSnapState) :
    (resize s index delta sizes lowP highP oMin oMax sb sa).proportions
      = s.proportions := by
  unfold resize
  split_ifs
  · rfl
  · show (resizeCore (applySnaps s delta sb sa) _ _ _ _ _ _ _).proportions
      = s.proportions
    rw [show ∀ t : SplitView, (resizeCore t index delta sizes lowP highP
      oMin oMax).proportions = t.proportions from fun t => rfl]
    exact applySnaps_proportions _ _ _ _

lemma layout_proportions (S : ℚ) (s : SplitView) :
    (layout S s).proportions = s.proportions := by
  by_cases h0 : s.viewItems.length = 0
  · rw [layout_eq_zero S s h0]
  · cases hps : s.proportions with
    | some ps =>
      rw [layout_eq_prop S s ps hps h0]
      rw [show ∀ t : SplitView, (layoutViews t).proportions = t.proportions
        from fun t => rfl]
      rw [distributeEmptySpace_proportions]
      exact hps.symm ▸ rfl
    | none =>
      rw [layout_eq_none S s hps h0]
      rw [show ∀ t : SplitView, (layoutViews t).proportions = t.proportions
        from fun t => rfl]
      rw [distributeEmptySpace_proportions, resize_proportions]
      exact hps.symm ▸ rfl

lemma distributeEmptySpace_length (lp : Option ℕ) (s : SplitView) :
    (distributeEmptySpace lp s).viewItems.length = s.viewItems.length :=
  length_eq_of_skeleton _ _ (distributeEmptySpace_skeleton lp s)

lemma distributeEmptySpace_viewItems_congr (lp : Option ℕ)
    (s1 s2 : SplitView) (hsz : s1.size = s2.size)
    (hvi : s1.viewItems = s2.viewItems) :
    (distributeEmptySpace lp s1).viewItems
      = (distributeEmptySpace lp s2).viewItems := by
  simp only [distributeEmptySpace, hvi, hsz, apply_ite SplitView.viewItems]

/-- C7 (amended): when `proportionalLayout` is on and proportions are
cached with one entry per view item, two consecutive `layout(S)` calls
produce identical per-item sizes — the second call recomputes the same
clamped proportional sizes from the unchanged proportions vector and the
empty-space pass then reproduces the same distribution. (Without cached
proportions the claim fails: see the counterexample.) -/
theorem C7_layout_idempotent_amended (S : ℚ) (s : SplitView) (ps : List ℚ)
    (hps : s.proportions = some ps) (hlen : ps.length = s.viewItems.length) :
    (layout S (layout S s)).viewItems.map ViewItem.size
      = (layout S s).viewItems.map ViewItem.size := by
  by_cases h0 : s.viewItems.length = 0
  · rw [layout_eq_zero S s h0, layout_eq_zero S s h0]
  · have h1 := layout_eq_prop S s ps hps h0
    have hs1p : (layout S s).proportions = some ps := by
      rw [layout_proportions]
      exact hps
    have hs1len : (layout S s).viewItems.length = s.viewItems.length := by
      rw [h1, layoutViews_viewItems, distributeEmptySpace_length]
      exact propPhase_length ps S s.viewItems 0
    have hs1skel : skeleton (layout S s).viewItems = skeleton s.viewItems := by
      rw [h1, layoutViews_viewItems, distributeEmptySpace_skeleton]
      exact propPhase_skeleton ps S s.viewItems 0
    have h2 := layout_eq_prop S (layout S s) ps hs1p
      (by rw [hs1len]; exact h0)
    have hphase : propPhase ps S 0 (layout S s).viewItems
        = propPhase ps S 0 s.viewItems := by
      refine propPhase_congr ps S _ _ 0 hs1skel ?_
      intro i hi
      rw [hs1len, ← hlen] at hi
      have hsome := List.get?_eq_get hi
      rw [show (0 : ℕ) + i = i from by omega, hsome]
      rfl
    rw [h2, layoutViews_viewItems]
    have hX : (distributeEmptySpace none ({ layout S s with
          size := S
          viewItems := propPhase ps S 0 (layout S s).viewItems } :
            SplitView)).viewItems
        = (distributeEmptySpace none ({ s with
            size := S
            viewItems := propPhase ps S 0 s.viewItems } :
              SplitView)).viewItems :=
      distributeEmptySpace_viewItems_congr none _ _ rfl hphase
    rw [hX, h1, layoutViews_viewItems]

/-- A view with bounds `[0, 60]` and no declared priority. -/
def v60 : View := ⟨0, 60, none, false⟩

/-- Reachable state with `proportionalLayout` on and no cached
proportions: a fresh engine after two `addView(…, 50, skipLayout)`
calls. -/
def ex7 : SplitView :=
  addView (addView emptySplitView v60 (Sizing.exact 50) 0 true) v60
    (Sizing.exact 50) 1 true

/-- C7 (counterexample): `ex7` has `proportionalLayout` on (the default)
but no cached proportions, so `layout(100)` takes the resize path; the
first call produces sizes `[60, 60]` (content 120 overflows the container
because the stale `contentSize` 0 made the delta too large, and no item
declares a priority for the empty-space pass to use), and the second call
shrinks to `[60, 40]` — the second call changes a size, refuting
idempotence as claimed. -/
theorem C7_counterexample :
    ex7.proportionalLayout = true ∧
    (layout 100 ex7).viewItems.map ViewItem.size = [60, 60] ∧
    (layout 100 (layout 100 ex7)).viewItems.map ViewItem.size = [60, 40] ∧
    ([60, 40] : List ℚ) ≠ [60, 60] := by
  with_unfolding_all decide

/-- Witness for C7 on the proportions-covered state `ex2`. -/
theorem C7_layout_idempotent_amended_witness :
    (ex2.proportions = some [1 / 3, 1 / 3, 1 / 3] ∧
      ([1 / 3, 1 / 3, 1 / 3] : List ℚ).length = ex2.viewItems.length) ∧
    (layout 300 (layout 300 ex2)).viewItems.map ViewItem.size
      = (layout 300 ex2).viewItems.map ViewItem.size :=
  ⟨⟨rfl, by decide⟩,
    C7_layout_idempotent_amended 300 ex2 [1 / 3, 1 / 3, 1 / 3] rfl (by decide)⟩

end VueAllotment
